import Mathlib

/-
  Verification of the attribute-to-StructureDefinition conversion pipeline.

  The development shallowly embeds the Rust sources of the converter:
  `src/attribute/aidbox.rs` (raw input records), `src/attribute/typed.rs`
  (the validator), `src/trie/raw.rs` (the per-resource path-trie forest),
  `src/trie/path.rs` (kind-annotated nodes), `src/trie/extension_separated.rs`
  (normal/extension child separation), `src/trie/inverted.rs` (re-keying of
  extensions by URL) and `src/trie/fhir.rs` (StructureDefinition emission).

  Rust `BTreeMap<String, V>` values are embedded as association lists kept in
  strictly ascending key order; `BTreeMap::insert` becomes a sorted insertion
  that replaces an existing key in place, and iteration is list order.
  Each tree type is a mutual inductive with its own children-list type so that
  all stage functions are structural recursions and evaluate definitionally.
-/

set_option maxRecDepth 8000

/-- Byte-lexicographic key order of the `BTreeMap` embedding, computed on the
character data so that it evaluates definitionally (the library's
`String.decidableLT` is iterator-based and does not reduce in the kernel). -/
def keyLt (a b : String) : Bool := decide (a.data < b.data)

namespace Smap

/-- Lookup in an association list, mirroring `BTreeMap::get`: the first entry
with the given key wins (on the sorted lists we build, keys are unique). -/
def find? {α : Type} : List (String × α) → String → Option α
  | [], _ => none
  | (k', v') :: rest, k => if k = k' then some v' else find? rest k

/-- Sorted insertion, mirroring `BTreeMap::insert` on a strictly-ascending
association list: an existing key is replaced in place. -/
def insert {α : Type} : List (String × α) → String → α → List (String × α)
  | [], k, v => [(k, v)]
  | (k', v') :: rest, k, v =>
    if keyLt k k' then (k, v) :: (k', v') :: rest
    else if k = k' then (k, v) :: rest
    else (k', v') :: insert rest k v

/-- Every key of the list is strictly greater than `k`. -/
def allGt {α : Type} (k : String) : List (String × α) → Bool
  | [] => true
  | (k', _) :: rest => keyLt k k' && allGt k rest

/-- Keys are in strictly ascending order (the `BTreeMap` representation
invariant of the embedding). -/
def sorted {α : Type} : List (String × α) → Bool
  | [] => true
  | (k, _) :: rest => allGt k rest && sorted rest

theorem find?_allGt {α : Type} {k k' : String} {v : α} {m : List (String × α)}
    (hgt : allGt k' m = true) (hf : find? m k = some v) : k'.data < k.data := by
  induction m with
  | nil => simp [find?] at hf
  | cons hd tl ih =>
    obtain ⟨k₀, v₀⟩ := hd
    simp only [allGt, keyLt, Bool.and_eq_true, decide_eq_true_eq] at hgt
    simp only [find?] at hf
    by_cases h : k = k₀
    · exact h ▸ hgt.1
    · simp only [h, if_false] at hf
      exact ih hgt.2 hf

theorem insert_find?_eq {α : Type} {m : List (String × α)} {k : String} {v : α}
    (hs : sorted m = true) (hf : find? m k = some v) : insert m k v = m := by
  induction m with
  | nil => simp [find?] at hf
  | cons hd tl ih =>
    obtain ⟨k', v'⟩ := hd
    simp only [sorted, Bool.and_eq_true] at hs
    by_cases heq : k = k'
    · subst heq
      have hv : v' = v := by simpa [find?] using hf
      subst hv
      simp [insert, keyLt, lt_irrefl]
    · simp only [find?, heq, if_false] at hf
      have hlt : k'.data < k.data := find?_allGt hs.1 hf
      have h1 : keyLt k k' = false := by
        simp only [keyLt, decide_eq_false_iff_not]
        exact fun h => absurd (lt_trans h hlt) (lt_irrefl k.data)
      simp [insert, h1, heq, ih hs.2 hf]

theorem insert_append_of_allGt {α : Type} {m : List (String × α)} {k : String} (v : α)
    (hgt : ∀ k' ∈ m.map Prod.fst, k'.data < k.data) : insert m k v = m ++ [(k, v)] := by
  induction m with
  | nil => simp [insert]
  | cons hd tl ih =>
    obtain ⟨k', v'⟩ := hd
    have hk' : k'.data < k.data := hgt k' (by simp)
    have h1 : keyLt k k' = false := by
      simp only [keyLt, decide_eq_false_iff_not]
      exact fun hc => absurd (lt_trans hc hk') (lt_irrefl k.data)
    have h2 : k ≠ k' := by
      intro hc
      subst hc
      exact absurd hk' (lt_irrefl k.data)
    simp only [insert, h1, Bool.false_eq_true, if_false, h2]
    have htl : insert tl k v = tl ++ [(k, v)] := by
      refine ih ?_
      intro k₀ hk₀
      exact hgt k₀ (by simp [hk₀])
    simp [htl]

end Smap

namespace aidbox

/-- Embeds `aidbox::Reference` from `src/attribute/aidbox.rs`. -/
structure Reference where
  id : String
  resourceType : String
deriving DecidableEq, Repr

/-- Embeds `aidbox::Attribute` from `src/attribute/aidbox.rs`.  The `schema` field
holds an arbitrary JSON value in the source and is only ever tested for
presence, so it is embedded as `Option Unit`.  The Rust field `type` is a
keyword in Lean and is embedded as `type?`. -/
structure Attribute where
  id : String
  path : List String
  module : Option String := none
  text : Option String := none
  description : Option String := none
  resource : Reference
  type? : Option Reference := none
  extensionUrl : Option String := none
  schema : Option Unit := none
  isRequired : Option Bool := none
  isCollection : Option Bool := none
  isOpen : Option Bool := none
  union : Option (List Reference) := none
  isUnique : Option Bool := none
  enum : Option String := none
  order : Option Int := none
  isSummary : Option Bool := none
  isModifier : Option Bool := none
  valueSet : Option Reference := none
  refers : Option (List String) := none
deriving DecidableEq, Repr

end aidbox

namespace typed

/-- Embeds `InvalidPolymorphic` from `src/attribute/typed.rs`. -/
inductive InvalidPolymorphic where
  | valueSetPresent
  | openSchema
  | enumPresent
  | refersPresent
  | noTargets
deriving DecidableEq, Repr

/-- Embeds `InvalidConcrete` from `src/attribute/typed.rs` (the `enumOnNonStirngType`
spelling follows the source). -/
inductive InvalidConcrete where
  | valueSetOnWrongType (typeName : String)
  | refersOnNonReferenceType (typeName : String)
  | enumOnNonStirngType (typeName : String)
  | openSchema
deriving DecidableEq, Repr

/-- Embeds `InvalidComplex` from `src/attribute/typed.rs`. -/
inductive InvalidComplex where
  | valueSetPresent
  | enumPresent
  | refersPresent
deriving DecidableEq, Repr

/-- Embeds `InvalidAttributeError` from `src/attribute/typed.rs`. -/
inductive InvalidAttributeError where
  | invalidKind
  | schemaPresent
  | summaryPresent
  | modifierPresent
  | uniquePresent
  | orderPresent
  | invalidEntityReference (r : aidbox.Reference)
  | invalidValuesetReference (r : aidbox.Reference)
  | invalidConcrete (e : InvalidConcrete)
  | invalidPolymorphic (e : InvalidPolymorphic)
  | invalidComplex (e : InvalidComplex)
deriving DecidableEq, Repr

/-- Embeds `typed::Error` from `src/attribute/typed.rs`: an invalid-attribute error
tagged with the offending attribute id. -/
structure Error where
  id : String
  source : InvalidAttributeError
deriving DecidableEq, Repr

/-- Embeds `AttributeKindPoly` from `src/attribute/typed.rs`. -/
structure AttributeKindPoly where
  targets : List String
deriving DecidableEq, Repr

/-- Embeds `AttributeKindConcrete` from `src/attribute/typed.rs`.  `enumeration` is
carried through from the raw `enum` field (presence-checked only). -/
structure AttributeKindConcrete where
  target : String
  valueSet : Option String
  refers : Option (List String)
  enumeration : Option String
deriving DecidableEq, Repr

/-- Embeds `AttributeKindComplex` from `src/attribute/typed.rs` (`open` is a Lean
keyword, embedded as `isOpen`). -/
structure AttributeKindComplex where
  isOpen : Bool
deriving DecidableEq, Repr

/-- Embeds `AttributeKind` from `src/attribute/typed.rs`. -/
inductive AttributeKind where
  | poly (p : AttributeKindPoly)
  | concrete (c : AttributeKindConcrete)
  | complex (c : AttributeKindComplex)
deriving DecidableEq, Repr

/-- Embeds `typed::Attribute` from `src/attribute/typed.rs`. -/
structure Attribute where
  id : String
  path : List String
  resourceType : String
  kind : AttributeKind
  array : Bool
  required : Bool
  fce : Option String
deriving DecidableEq, Repr

/-- Embeds `CODED_TYPES` from `src/attribute/typed.rs`. -/
def CODED_TYPES : List String :=
  ["code", "Coding", "CodeableConcept", "Quantity", "string", "uri", "Duration"]

/-- Embeds `STRING_TYPES` from `src/attribute/typed.rs`. -/
def STRING_TYPES : List String :=
  ["base64Binary", "canonical", "code", "date", "dateTime", "email", "id",
   "instant", "keyword", "markdown", "oid", "password", "secret", "string",
   "time", "uri", "url", "uuid", "xhtml"]

/-- Rust `Option<bool>::is_some_and(|x| x)`. -/
def optIsTrue : Option Bool → Bool
  | some b => b
  | none => false

/-- Embeds `Attribute::check_unsupported_properties`: one diagnostic per present
unsupported property, in source push order. -/
def Attribute.check_unsupported_properties (attr : aidbox.Attribute) :
    List InvalidAttributeError :=
  (if attr.schema.isSome then [InvalidAttributeError.schemaPresent] else [])
  ++ (if attr.isSummary.isSome then [InvalidAttributeError.summaryPresent] else [])
  ++ (if attr.isModifier.isSome then [InvalidAttributeError.modifierPresent] else [])
  ++ (if attr.isUnique.isSome then [InvalidAttributeError.uniquePresent] else [])
  ++ (if attr.order.isSome then [InvalidAttributeError.orderPresent] else [])

/-- Embeds `Attribute::parse_resource_type`: the id is kept even on a kind-tag
mismatch, with an `InvalidEntityReference` diagnostic. -/
def Attribute.parse_resource_type (target : aidbox.Reference) :
    Option String × Option InvalidAttributeError :=
  if target.resourceType ≠ "Entity" then
    (some target.id, some (InvalidAttributeError.invalidEntityReference target))
  else
    (some target.id, none)

/-- Embeds `Attribute::parse_type`: a reference to an `Attribute` is dropped
(recursive types are unsupported); any other non-`Entity` kind keeps the id
alongside an `InvalidEntityReference` diagnostic. -/
def Attribute.parse_type (target : aidbox.Reference) :
    Option String × Option InvalidAttributeError :=
  if target.resourceType = "Attribute" then
    (none, some (InvalidAttributeError.invalidEntityReference target))
  else if target.resourceType ≠ "Entity" then
    (some target.id, some (InvalidAttributeError.invalidEntityReference target))
  else
    (some target.id, none)

/-- Embeds `Attribute::parse_value_set`. -/
def Attribute.parse_value_set (valueSet : aidbox.Reference) :
    String × Option InvalidAttributeError :=
  if valueSet.resourceType ≠ "ValueSet" then
    (valueSet.id, some (InvalidAttributeError.invalidValuesetReference valueSet))
  else
    (valueSet.id, none)

/-- Embeds `Attribute::read_target_attribute` (the concrete branch).  The source
asserts `type` is present and `union` absent; the `none` case is unreachable
from `build_from`.  Error pushes follow source order: resource-type error,
`isOpen`, value-set reference error, type error, then the three
target-dependent checks. -/
def Attribute.read_target_attribute (attr : aidbox.Attribute) :
    Option Attribute × List InvalidAttributeError :=
  match attr.type? with
  | none => (none, [])
  | some attrType =>
    let rt := Attribute.parse_resource_type attr.resource
    let openErrs : List InvalidAttributeError :=
      if optIsTrue attr.isOpen then [InvalidAttributeError.invalidConcrete InvalidConcrete.openSchema] else []
    let vs : Option String × List InvalidAttributeError :=
      match attr.valueSet with
      | some valueSetRef =>
        let p := Attribute.parse_value_set valueSetRef
        (some p.1, p.2.toList)
      | none => (none, [])
    let tp := Attribute.parse_type attrType
    match tp.1 with
    | some target =>
      let vsErrs : List InvalidAttributeError :=
        if vs.1.isSome && !(CODED_TYPES.contains target) then
          [InvalidAttributeError.invalidConcrete (InvalidConcrete.valueSetOnWrongType target)]
        else []
      let enumErrs : List InvalidAttributeError :=
        if attr.enum.isSome && !(STRING_TYPES.contains target) then
          [InvalidAttributeError.invalidConcrete (InvalidConcrete.enumOnNonStirngType target)]
        else []
      let refersErrs : List InvalidAttributeError :=
        if attr.refers.isSome && target ≠ "Reference" then
          [InvalidAttributeError.invalidConcrete (InvalidConcrete.refersOnNonReferenceType target)]
        else []
      let errs := rt.2.toList ++ openErrs ++ vs.2 ++ tp.2.toList ++ vsErrs ++ enumErrs ++ refersErrs
      match rt.1 with
      | none => (none, errs)
      | some resourceType =>
        (some { id := attr.id, path := attr.path, resourceType := resourceType,
                kind := AttributeKind.concrete
                  { target := target, valueSet := vs.1, refers := attr.refers,
                    enumeration := attr.enum },
                array := optIsTrue attr.isCollection,
                required := optIsTrue attr.isRequired,
                fce := attr.extensionUrl }, errs)
    | none => (none, rt.2.toList ++ openErrs ++ vs.2 ++ tp.2.toList)

/-- The per-entry loop of `read_poly_attribute`: parse each union member,
accumulating targets and errors in iteration order. -/
def Attribute.parse_union_targets : List aidbox.Reference →
    List String × List InvalidAttributeError
  | [] => ([], [])
  | r :: rest =>
    let t := Attribute.parse_type r
    let p := Attribute.parse_union_targets rest
    (t.1.toList ++ p.1, t.2.toList ++ p.2)

/-- Embeds `Attribute::read_poly_attribute` (the polymorphic branch). -/
def Attribute.read_poly_attribute (attr : aidbox.Attribute) :
    Option Attribute × List InvalidAttributeError :=
  match attr.union with
  | none => (none, [])
  | some attrTypes =>
    let rt := Attribute.parse_resource_type attr.resource
    let openErrs : List InvalidAttributeError :=
      if optIsTrue attr.isOpen then [InvalidAttributeError.invalidPolymorphic InvalidPolymorphic.openSchema] else []
    let vsErrs : List InvalidAttributeError :=
      if attr.valueSet.isSome then [InvalidAttributeError.invalidPolymorphic InvalidPolymorphic.valueSetPresent] else []
    let enumErrs : List InvalidAttributeError :=
      if attr.enum.isSome then [InvalidAttributeError.invalidPolymorphic InvalidPolymorphic.enumPresent] else []
    let refersErrs : List InvalidAttributeError :=
      if attr.refers.isSome then [InvalidAttributeError.invalidPolymorphic InvalidPolymorphic.refersPresent] else []
    let emptyErrs : List InvalidAttributeError :=
      if attrTypes.isEmpty then [InvalidAttributeError.invalidPolymorphic InvalidPolymorphic.noTargets] else []
    let p := Attribute.parse_union_targets attrTypes
    let errs := rt.2.toList ++ openErrs ++ vsErrs ++ enumErrs ++ refersErrs ++ emptyErrs ++ p.2
    match rt.1 with
    | none => (none, errs)
    | some resourceType =>
      if p.1.isEmpty then (none, errs)
      else
        (some { id := attr.id, path := attr.path, resourceType := resourceType,
                kind := AttributeKind.poly { targets := p.1 },
                array := optIsTrue attr.isCollection,
                required := optIsTrue attr.isRequired,
                fce := attr.extensionUrl }, errs)

/-- Embeds `Attribute::read_complex_attribute` (the complex branch). -/
def Attribute.read_complex_attribute (attr : aidbox.Attribute) :
    Option Attribute × List InvalidAttributeError :=
  let rt := Attribute.parse_resource_type attr.resource
  let vsErrs : List InvalidAttributeError :=
    if attr.valueSet.isSome then [InvalidAttributeError.invalidComplex InvalidComplex.valueSetPresent] else []
  let enumErrs : List InvalidAttributeError :=
    if attr.enum.isSome then [InvalidAttributeError.invalidComplex InvalidComplex.enumPresent] else []
  let refersErrs : List InvalidAttributeError :=
    if attr.refers.isSome then [InvalidAttributeError.invalidComplex InvalidComplex.refersPresent] else []
  let errs := rt.2.toList ++ vsErrs ++ enumErrs ++ refersErrs
  match rt.1 with
  | none => (none, errs)
  | some resourceType =>
    (some { id := attr.id, path := attr.path, resourceType := resourceType,
            kind := AttributeKind.complex { isOpen := optIsTrue attr.isOpen },
            array := optIsTrue attr.isCollection,
            required := optIsTrue attr.isRequired,
            fce := attr.extensionUrl }, errs)

/-- Embeds `Attribute::build_from`: unsupported-property diagnostics first, then the
branch selected by the presence of `type` / `union`; all errors are wrapped
with the attribute id. -/
def Attribute.build_from (attr : aidbox.Attribute) :
    Option Attribute × List Error :=
  let unsupported := Attribute.check_unsupported_properties attr
  let read : Option Attribute × List InvalidAttributeError :=
    match attr.type?, attr.union with
    | some _, none => Attribute.read_target_attribute attr
    | none, some _ => Attribute.read_poly_attribute attr
    | none, none => Attribute.read_complex_attribute attr
    | some _, some _ => (none, [InvalidAttributeError.invalidKind])
  (read.1, (unsupported ++ read.2).map (fun e => { id := attr.id, source := e }))

end typed

namespace raw

/-- Embeds `raw::Error` from `src/trie/raw.rs`. -/
inductive Error where
  | alreadyExists (path : String)
deriving DecidableEq, Repr

mutual
/-- Embeds `raw::Node` from `src/trie/raw.rs`: an optional attribute plus a
`BTreeMap<String, Node>` of children (embedded as `Children`). -/
inductive Node where
  | mk (attr : Option typed.Attribute) (children : Children)
/-- The children map of a raw trie node, in ascending key order. -/
inductive Children where
  | nil
  | cons (key : String) (node : Node) (rest : Children)
end

/-- Embeds `Node::new()`. -/
def Node.empty : Node := .mk none .nil

def Node.attr : Node → Option typed.Attribute
  | .mk a _ => a

def Node.children : Node → Children
  | .mk _ c => c

/-- Children lookup, mirroring `BTreeMap::get`. -/
def Children.find? : Children → String → Option Node
  | .nil, _ => none
  | .cons k' v' rest, k => if k = k' then some v' else rest.find? k

/-- Children insertion, mirroring `BTreeMap::insert` on the ascending list. -/
def Children.insertSorted : Children → String → Node → Children
  | .nil, k, v => .cons k v .nil
  | .cons k' v' rest, k, v =>
    if keyLt k k' then .cons k v (.cons k' v' rest)
    else if k = k' then .cons k v rest
    else .cons k' v' (rest.insertSorted k v)

/-- The walk of `Trie::insert`: `entry(...).or_insert(Node::new())` along the
path, then the attribute slot is filled, or `AlreadyExists` is returned with
the existing attribute's dot-joined path. -/
def Node.insertAt : Node → List String → typed.Attribute → Node × Option Error
  | .mk a? cs, [], attr =>
    match a? with
    | some existing =>
      (.mk (some existing) cs, some (Error.alreadyExists (String.intercalate "." existing.path)))
    | none => (.mk (some attr) cs, none)
  | .mk a? cs, p :: ps, attr =>
    let child := (cs.find? p).getD Node.empty
    let r := child.insertAt ps attr
    (.mk a? (cs.insertSorted p r.1), r.2)

/-- Embeds `raw::Trie` from `src/trie/raw.rs`. -/
structure Trie where
  resourceType : String
  root : Node

/-- Embeds `raw::Forest` from `src/trie/raw.rs`. -/
structure Forest where
  forest : List (String × Trie)

def Forest.empty : Forest := ⟨[]⟩

/-- Embeds `Forest::insert`: `entry(rt).or_insert_with(Trie::new(rt))`, then a trie
insert, the updated trie written back. -/
def Forest.insert (f : Forest) (attr : typed.Attribute) : Forest × Option Error :=
  let trie := (Smap.find? f.forest attr.resourceType).getD ⟨attr.resourceType, Node.empty⟩
  let r := trie.root.insertAt attr.path attr
  (⟨Smap.insert f.forest attr.resourceType ⟨trie.resourceType, r.1⟩⟩, r.2)

/-- Embeds `Forest::build_from_attributes`: insert each attribute in order,
accumulating `AlreadyExists` errors. -/
def Forest.build_from_attributes : List typed.Attribute → Forest × List Error :=
  go Forest.empty
where
  go (f : Forest) : List typed.Attribute → Forest × List Error
    | [] => (f, [])
    | attr :: rest =>
      let r := f.insert attr
      let p := go r.1 rest
      (p.1, r.2.toList ++ p.2)

/-- Lookup the attribute stored at a path of a node. -/
def Node.findAttr : Node → List String → Option typed.Attribute
  | .mk a? _, [] => a?
  | .mk _ cs, p :: ps =>
    match cs.find? p with
    | some c => c.findAttr ps
    | none => none

/-- Lookup the attribute stored at `(resourceType, path)` of a forest. -/
def Forest.findAttr (f : Forest) (rt : String) (path : List String) :
    Option typed.Attribute :=
  match Smap.find? f.forest rt with
  | some trie => trie.root.findAttr path
  | none => none

/-- All keys of a children map are strictly greater than `k`. -/
def Children.allGt (k : String) : Children → Bool
  | .nil => true
  | .cons k' _ rest => keyLt k k' && rest.allGt k

mutual
/-- Representation invariant: all children maps in the node have strictly
ascending keys (as `BTreeMap` iteration guarantees in the source). -/
def Node.wf : Node → Bool
  | .mk _ cs => cs.sortedKeys && cs.wfAll
def Children.sortedKeys : Children → Bool
  | .nil => true
  | .cons k _ rest => Children.allGt k rest && rest.sortedKeys
def Children.wfAll : Children → Bool
  | .nil => true
  | .cons _ n rest => n.wf && rest.wfAll
end

/-- Representation invariant of a forest: the trie map is sorted and every
trie root is well-formed. -/
def Forest.wf (f : Forest) : Bool :=
  Smap.sorted f.forest && f.forest.all (fun p => p.2.root.wf)

end raw

namespace path

mutual
/-- Embeds `path::Node` from `src/trie/path.rs`. -/
inductive Node where
  | normal (n : NormalNode)
  | ext (e : Extension)
/-- Embeds `path::NormalNode` from `src/trie/path.rs`; constructor arguments follow
the source struct fields (`open` is embedded as `isOpen`). -/
inductive NormalNode where
  | concrete (array : Bool) (children : Children) (id : String)
      (refers : Option (List String)) (required : Bool) (resourceType : String)
      (target : String) (valueSet : Option String)
  | polymorphic (array : Bool) (children : Children) (id : String)
      (path : List String) (required : Bool) (resourceType : String)
      (targets : List String)
  | complex (array : Bool) (id : String) (isOpen : Bool) (required : Bool)
      (resourceType : String) (children : Children)
  | inferred (children : Children)
/-- Embeds `path::Extension` from `src/trie/path.rs`. -/
inductive Extension where
  | concrete (array : Bool) (children : Children) (fce : String) (id : String)
      (refers : Option (List String)) (required : Bool) (resourceType : String)
      (target : String) (valueSet : Option String)
  | polymorphic (array : Bool) (children : Children) (fce : String) (id : String)
      (path : List String) (required : Bool) (resourceType : String)
      (targets : List String)
  | complex (array : Bool) (fce : String) (id : String) (isOpen : Bool)
      (required : Bool) (resourceType : String) (children : Children)
/-- The children map of a path-trie node, in ascending key order. -/
inductive Children where
  | nil
  | cons (key : String) (node : Node) (rest : Children)
end

mutual
/-- Embeds `path::Node::build_from`: lift a raw node by the `(kind, fce)` table of
the source; a node without an attribute becomes `Normal(Inferred)`. -/
def Node.build_from : raw.Node → Node
  | .mk a? cs =>
    let children := Children.build_from cs
    match a? with
    | some attr =>
      match attr.kind, attr.fce with
      | typed.AttributeKind.poly p, none =>
        .normal (.polymorphic attr.array children attr.id attr.path attr.required
          attr.resourceType p.targets)
      | typed.AttributeKind.poly p, some fce =>
        .ext (.polymorphic attr.array children fce attr.id attr.path attr.required
          attr.resourceType p.targets)
      | typed.AttributeKind.concrete c, none =>
        .normal (.concrete attr.array children attr.id c.refers attr.required
          attr.resourceType c.target c.valueSet)
      | typed.AttributeKind.concrete c, some fce =>
        .ext (.concrete attr.array children fce attr.id c.refers attr.required
          attr.resourceType c.target c.valueSet)
      | typed.AttributeKind.complex c, none =>
        .normal (.complex attr.array attr.id c.isOpen attr.required
          attr.resourceType children)
      | typed.AttributeKind.complex c, some fce =>
        .ext (.complex attr.array fce attr.id c.isOpen attr.required
          attr.resourceType children)
    | none => .normal (.inferred children)
/-- Children are lifted entrywise; the map collected from the sorted raw map
keeps the same keys in the same order. -/
def Children.build_from : raw.Children → Children
  | .nil => .nil
  | .cons k n rest => .cons k (Node.build_from n) (Children.build_from rest)
end

/-- Embeds `path::Trie::build_from` / `path::Forest::build_from`: one lifted trie per
resource type, keys unchanged. -/
def Forest.build_from (f : raw.Forest) : List (String × Node) :=
  f.forest.map (fun p => (p.1, Node.build_from p.2.root))

/-- Embeds `Extension::convert_to_normal_node`: drop the URL, keep everything else. -/
def Extension.convert_to_normal_node : Extension → NormalNode
  | .concrete array children _ id refers required resourceType target valueSet =>
    .concrete array children id refers required resourceType target valueSet
  | .polymorphic array children _ id p required resourceType targets =>
    .polymorphic array children id p required resourceType targets
  | .complex array _ id isOpen required resourceType children =>
    .complex array id isOpen required resourceType children

/-- Modelled from the spec: the `get_id` accessor referenced by the
extension-separation stage is not among the provided sources; per §3 of the
spec every kind-annotated node carries "the originating attribute id", and
`Inferred` carries none. -/
def NormalNode.get_id : NormalNode → Option String
  | .concrete _ _ id _ _ _ _ _ => some id
  | .polymorphic _ _ id _ _ _ _ => some id
  | .complex _ id _ _ _ _ => some id
  | .inferred _ => none

/-- Modelled from the spec: `get_id` for extension nodes (every extension
variant carries its attribute id). -/
def Extension.get_id : Extension → String
  | .concrete _ _ _ id _ _ _ _ _ => id
  | .polymorphic _ _ _ id _ _ _ _ => id
  | .complex _ _ id _ _ _ _ => id

/-- Modelled from the spec: `get_id` on a `path::Node`. -/
def Node.get_id : Node → Option String
  | .normal n => n.get_id
  | .ext e => some e.get_id

end path

namespace extension_separated

/-- Embeds `extension_separated::Error` from `src/trie/extension_separated.rs`. -/
inductive Error where
  | concreteHasChild (node_id : String)
  | polymorphicChildExtension (attr_id : String) (child_id : String)
  | polymorphicNonConcreteChild (attr_id : String) (child_id : String)
  | polymorphicInferredChild (attr_id : String) (child_prop : String)
  | rootIsExtension (attr_id : String)
  | nonExtensionInsideExtension (parent_id : String) (child_id : String)
  | missingChild (parent_id : String) (child_property : String)
  | polymorphicChildHasArray (attr_id : String)
  | polymorphicChildIsRequired (attr_id : String)
deriving DecidableEq, Repr

/-- Embeds `PolymorphicLeaf` from `src/trie/extension_separated.rs`. -/
structure PolymorphicLeaf where
  id : String
  refers : Option (List String)
  resourceType : String
  target : String
  valueSet : Option String
deriving DecidableEq, Repr

mutual
/-- Embeds `extension_separated::NormalNode`. -/
inductive NormalNode where
  | concrete (array : Bool) (id : String) (refers : Option (List String))
      (required : Bool) (resourceType : String) (target : String)
      (valueSet : Option String)
  | polymorphic (array : Bool) (children : List (String × PolymorphicLeaf))
      (id : String) (path : List String) (required : Bool)
      (resourceType : String) (targets : List String)
  | complex (array : Bool) (id : String) (isOpen : Bool) (required : Bool)
      (resourceType : String) (children : Children) (extension : Exts)
  | inferred (children : Children) (extension : Exts)
/-- Embeds `extension_separated::Extension`. -/
inductive Extension where
  | concrete (array : Bool) (fce : String) (id : String)
      (refers : Option (List String)) (required : Bool) (resourceType : String)
      (target : String) (valueSet : Option String)
  | polymorphic (array : Bool) (children : List (String × PolymorphicLeaf))
      (fce : String) (id : String) (path : List String) (required : Bool)
      (resourceType : String) (targets : List String)
  | complex (array : Bool) (fce : String) (id : String) (isOpen : Bool)
      (required : Bool) (resourceType : String) (extension : Exts)
/-- Normal-children map of a separated node, ascending keys. -/
inductive Children where
  | nil
  | cons (key : String) (node : NormalNode) (rest : Children)
/-- Extension-children map of a separated node, ascending keys (still keyed
by property name at this stage). -/
inductive Exts where
  | nil
  | cons (key : String) (e : Extension) (rest : Exts)
end

def Children.insertSorted : Children → String → NormalNode → Children
  | .nil, k, v => .cons k v .nil
  | .cons k' v' rest, k, v =>
    if keyLt k k' then .cons k v (.cons k' v' rest)
    else if k = k' then .cons k v rest
    else .cons k' v' (rest.insertSorted k v)

def Exts.insertSorted : Exts → String → Extension → Exts
  | .nil, k, v => .cons k v .nil
  | .cons k' v' rest, k, v =>
    if keyLt k k' then .cons k v (.cons k' v' rest)
    else if k = k' then .cons k v rest
    else .cons k' v' (rest.insertSorted k v)

/-- Embeds `Extension::get_url` from `src/trie/extension_separated.rs`. -/
def Extension.get_url : Extension → String
  | .concrete _ fce _ _ _ _ _ _ => fce
  | .polymorphic _ _ fce _ _ _ _ _ => fce
  | .complex _ fce _ _ _ _ _ => fce

/-- Embeds `PolymorphicLeaf::build_from`: flatten a concrete normal child of a
polymorphic node, diagnosing `array` / `required` on the child. -/
def PolymorphicLeaf.build_from (array : Bool) (id : String)
    (refers : Option (List String)) (required : Bool) (resourceType : String)
    (target : String) (valueSet : Option String) :
    PolymorphicLeaf × List Error :=
  let e1 : List Error := if array then [Error.polymorphicChildHasArray id] else []
  let e2 : List Error := if required then [Error.polymorphicChildIsRequired id] else []
  (⟨id, refers, resourceType, target, valueSet⟩, e1 ++ e2)

/-- The child loop of `PolymorphicNode::build_from` /
`PolymorphicExtension::build_from`, with the map and error accumulators of the
source loop made explicit.  A concrete normal child is flattened; a concrete
extension child is flattened after a `PolymorphicChildExtension` diagnostic;
any other child produces `PolymorphicNonConcreteChild` (attributed nodes) or
`PolymorphicInferredChild` (inferred nodes) and is dropped. -/
def sepPolyChildren (attrId : String) :
    path.Children → List (String × PolymorphicLeaf) → List Error →
    List (String × PolymorphicLeaf) × List Error
  | .nil, acc, errs => (acc, errs)
  | .cons name child rest, acc, errs =>
    match child with
    | path.Node.normal (path.NormalNode.concrete array _ id refers required resourceType target valueSet) =>
      let r := PolymorphicLeaf.build_from array id refers required resourceType target valueSet
      sepPolyChildren attrId rest (Smap.insert acc name r.1) (errs ++ r.2)
    | path.Node.ext (path.Extension.concrete array _ _ id refers required resourceType target valueSet) =>
      let r := PolymorphicLeaf.build_from array id refers required resourceType target valueSet
      sepPolyChildren attrId rest (Smap.insert acc name r.1)
        ((errs ++ [Error.polymorphicChildExtension attrId id]) ++ r.2)
    | node =>
      match node.get_id with
      | some childId =>
        sepPolyChildren attrId rest acc (errs ++ [Error.polymorphicNonConcreteChild attrId childId])
      | none =>
        sepPolyChildren attrId rest acc (errs ++ [Error.polymorphicInferredChild attrId name])

mutual
/-- Embeds `extension_separated::NormalNode::build_from`. -/
def NormalNode.build_from : path.NormalNode → NormalNode × List Error
  | path.NormalNode.concrete array children id refers required resourceType target valueSet =>
    let errs : List Error :=
      match children with
      | path.Children.nil => []
      | path.Children.cons _ _ _ => [Error.concreteHasChild id]
    (.concrete array id refers required resourceType target valueSet, errs)
  | path.NormalNode.polymorphic array children id p required resourceType targets =>
    let r := sepPolyChildren id children [] []
    (.polymorphic array r.1 id p required resourceType targets, r.2)
  | path.NormalNode.complex array id isOpen required resourceType children =>
    let r := sepSplitChildren children .nil .nil []
    (.complex array id isOpen required resourceType r.1 r.2.1, r.2.2)
  | path.NormalNode.inferred children =>
    let r := sepSplitChildren children .nil .nil []
    (.inferred r.1 r.2.1, r.2.2)
/-- Embeds `extension_separated::Extension::build_from`. -/
def Extension.build_from : path.Extension → Extension × List Error
  | path.Extension.concrete array children fce id refers required resourceType target valueSet =>
    let errs : List Error :=
      match children with
      | path.Children.nil => []
      | path.Children.cons _ _ _ => [Error.concreteHasChild id]
    (.concrete array fce id refers required resourceType target valueSet, errs)
  | path.Extension.polymorphic array children fce id p required resourceType targets =>
    let r := sepPolyChildren id children [] []
    (.polymorphic array r.1 fce id p required resourceType targets, r.2)
  | path.Extension.complex array fce id isOpen required resourceType children =>
    let r := sepComplexExtChildren id children .nil []
    (.complex array fce id isOpen required resourceType r.1, r.2)
/-- The child loop of `ComplexNode::build_from` / `InferredNode::build_from`:
partition children into the normal and extension maps. -/
def sepSplitChildren : path.Children → Children → Exts → List Error →
    Children × Exts × List Error
  | path.Children.nil, accC, accE, errs => (accC, accE, errs)
  | path.Children.cons name child rest, accC, accE, errs =>
    match child with
    | path.Node.normal n =>
      let r := NormalNode.build_from n
      sepSplitChildren rest (accC.insertSorted name r.1) accE (errs ++ r.2)
    | path.Node.ext e =>
      let r := Extension.build_from e
      sepSplitChildren rest accC (accE.insertSorted name r.1) (errs ++ r.2)
/-- The child loop of `ComplexExtension::build_from`: children must all be
extensions; attributed normal children produce `NonExtensionInsideExtension`,
inferred children produce `MissingChild`, and both are dropped. -/
def sepComplexExtChildren (parentId : String) :
    path.Children → Exts → List Error → Exts × List Error
  | path.Children.nil, accE, errs => (accE, errs)
  | path.Children.cons name child rest, accE, errs =>
    match child with
    | path.Node.normal n =>
      match n.get_id with
      | some childId =>
        sepComplexExtChildren parentId rest accE
          (errs ++ [Error.nonExtensionInsideExtension parentId childId])
      | none =>
        sepComplexExtChildren parentId rest accE
          (errs ++ [Error.missingChild parentId name])
    | path.Node.ext e =>
      let r := Extension.build_from e
      sepComplexExtChildren parentId rest (accE.insertSorted name r.1) (errs ++ r.2)
end

/-- Embeds `extension_separated::Trie::build_from`.  NOTE: the source pushes a
`RootIsExtension` diagnostic into a local `errors` vector and then immediately
shadows that vector with the tuple binding `let (root, errors) = match ...`,
so the pushed diagnostic never reaches the returned list; the embedding
reproduces the returned behavior: an extension root is coerced via
`convert_to_normal_node` and only the sub-build's diagnostics are returned. -/
def Trie.build_from : path.Node → NormalNode × List Error
  | path.Node.normal n => NormalNode.build_from n
  | path.Node.ext e => NormalNode.build_from e.convert_to_normal_node

/-- Embeds `extension_separated::Forest::build_from`: separate every trie,
accumulating errors in key order. -/
def Forest.build_from : List (String × path.Node) →
    List (String × NormalNode) × List Error
  | [] => ([], [])
  | (rt, root) :: rest =>
    let r := Trie.build_from root
    let p := Forest.build_from rest
    ((rt, r.1) :: p.1, r.2 ++ p.2)

end extension_separated

namespace inverted

/-- Embeds `inverted::Error` from `src/trie/inverted.rs`. -/
inductive Error where
  | polymorphicUndeclaredTarget (attr_id : String) (target : String)
  | duplicateExtensionUrl (url : String)
deriving DecidableEq, Repr

/-- Embeds `ExtensionTarget` from `src/trie/inverted.rs`. -/
structure ExtensionTarget where
  id : String
  refers : Option (List String)
  valueSet : Option String
deriving DecidableEq, Repr

/-- Embeds `inverted::PolymorphicLeaf` (drops `resource_type`). -/
structure PolymorphicLeaf where
  id : String
  refers : Option (List String)
  target : String
  valueSet : Option String
deriving DecidableEq, Repr

/-- Embeds `SimpleExtension` from `src/trie/inverted.rs`: `targets` is a
`BTreeMap<String, ExtensionTarget>` keyed by type name. -/
structure SimpleExtension where
  array : Bool
  targets : List (String × ExtensionTarget)
  fceProperty : String
  id : String
  required : Bool
deriving DecidableEq, Repr

mutual
/-- Embeds `inverted::NormalNode`. -/
inductive NormalNode where
  | concrete (array : Bool) (id : String) (refers : Option (List String))
      (required : Bool) (target : String) (valueSet : Option String)
  | polymorphic (array : Bool) (children : List (String × PolymorphicLeaf))
      (id : String) (path : List String) (required : Bool) (targets : List String)
  | complex (array : Bool) (id : String) (isOpen : Bool) (required : Bool)
      (children : Children) (extension : Exts)
  | inferred (children : Children) (extension : Exts)
/-- Embeds `inverted::Extension`: simple (payload is the non-recursive
`SimpleExtension` struct) or complex (recursive, inlined constructor
arguments mirroring the `ComplexExtension` struct fields). -/
inductive Extension where
  | simple (s : SimpleExtension)
  | complex (array : Bool) (fceProperty : String) (id : String) (isOpen : Bool)
      (required : Bool) (extension : Exts)
/-- Children map of an inverted node, ascending keys. -/
inductive Children where
  | nil
  | cons (key : String) (node : NormalNode) (rest : Children)
/-- Extension map of an inverted node, keyed by extension URL. -/
inductive Exts where
  | nil
  | cons (key : String) (e : Extension) (rest : Exts)
end

def Children.insertSorted : Children → String → NormalNode → Children
  | .nil, k, v => .cons k v .nil
  | .cons k' v' rest, k, v =>
    if keyLt k k' then .cons k v (.cons k' v' rest)
    else if k = k' then .cons k v rest
    else .cons k' v' (rest.insertSorted k v)

def Exts.insertSorted : Exts → String → Extension → Exts
  | .nil, k, v => .cons k v .nil
  | .cons k' v' rest, k, v =>
    if keyLt k k' then .cons k v (.cons k' v' rest)
    else if k = k' then .cons k v rest
    else .cons k' v' (rest.insertSorted k v)

def Exts.containsKey : Exts → String → Bool
  | .nil, _ => false
  | .cons k' _ rest, k => k = k' || rest.containsKey k

def Exts.keys : Exts → List String
  | .nil => []
  | .cons k _ rest => k :: rest.keys

def Exts.toList : Exts → List (String × Extension)
  | .nil => []
  | .cons k e rest => (k, e) :: rest.toList

/-- Embeds `PolymorphicLeaf::build_from`. -/
def PolymorphicLeaf.build_from (l : extension_separated.PolymorphicLeaf) :
    PolymorphicLeaf :=
  ⟨l.id, l.refers, l.target, l.valueSet⟩

/-- Embeds `SimpleExtension::build_from_concrete`: a single `targets` entry keyed by
the concrete target type. -/
def SimpleExtension.build_from_concrete (array : Bool) (fceProperty : String)
    (id : String) (refers : Option (List String)) (required : Bool)
    (target : String) (valueSet : Option String) : SimpleExtension :=
  { array := array,
    targets := [(target, ⟨id, refers, valueSet⟩)],
    fceProperty := fceProperty,
    id := id,
    required := required }

/-- The child loop of `SimpleExtension::build_from_polymorphic`: iterate the
polymorphic leaves in map order; a leaf whose property name is not among the
declared targets produces `PolymorphicUndeclaredTarget` but is still
inserted.  The `targets` map is keyed by the leaf's property name. -/
def polyTargetsLoop (attrId : String) (declared : List String) :
    List (String × extension_separated.PolymorphicLeaf) →
    List (String × ExtensionTarget) → List Error →
    List (String × ExtensionTarget) × List Error
  | [], acc, errs => (acc, errs)
  | (name, leaf) :: rest, acc, errs =>
    let errs' :=
      if declared.contains name then errs
      else errs ++ [Error.polymorphicUndeclaredTarget attrId name]
    polyTargetsLoop attrId declared rest
      (Smap.insert acc name ⟨leaf.id, leaf.refers, leaf.valueSet⟩) errs'

/-- Embeds `SimpleExtension::build_from_polymorphic` from `src/trie/inverted.rs`
(arguments are the fields of the separated `PolymorphicExtension` it
consumes plus the property name). -/
def SimpleExtension.build_from_polymorphic (array : Bool)
    (children : List (String × extension_separated.PolymorphicLeaf))
    (id : String) (required : Bool) (targets : List String)
    (fceProperty : String) : SimpleExtension × List Error :=
  let r := polyTargetsLoop id targets children [] []
  ({ array := array, targets := r.1, fceProperty := fceProperty, id := id,
     required := required }, r.2)

/-- Embeds `inverted::PolymorphicNode::build_from`: leaves are converted with no
declared-target check (the check exists only on the extension path). -/
def polymorphicChildrenFrom :
    List (String × extension_separated.PolymorphicLeaf) →
    List (String × PolymorphicLeaf)
  | [] => []
  | (name, leaf) :: rest => (name, PolymorphicLeaf.build_from leaf) :: polymorphicChildrenFrom rest

mutual
/-- Embeds `inverted::NormalNode::build_from`. -/
def NormalNode.build_from : extension_separated.NormalNode → NormalNode × List Error
  | extension_separated.NormalNode.concrete array id refers required _ target valueSet =>
    (.concrete array id refers required target valueSet, [])
  | extension_separated.NormalNode.polymorphic array children id p required _ targets =>
    (.polymorphic array (polymorphicChildrenFrom children) id p required targets, [])
  | extension_separated.NormalNode.complex array id isOpen required _ children exts =>
    let rc := invChildren children .nil []
    let re := invExts exts .nil rc.2
    (.complex array id isOpen required rc.1 re.1, re.2)
  | extension_separated.NormalNode.inferred children exts =>
    let rc := invChildren children .nil []
    let re := invExts exts .nil rc.2
    (.inferred rc.1 re.1, re.2)
/-- The normal-children loop of `ComplexNode::build_from` /
`InferredNode::build_from`. -/
def invChildren : extension_separated.Children → Children → List Error →
    Children × List Error
  | extension_separated.Children.nil, acc, errs => (acc, errs)
  | extension_separated.Children.cons name child rest, acc, errs =>
    let r := NormalNode.build_from child
    invChildren rest (acc.insertSorted name r.1) (errs ++ r.2)
/-- The extension loop shared by complex, inferred and complex-extension
nodes: re-key each extension child by its URL; on a duplicate URL emit
`DuplicateExtensionUrl` and keep the first. -/
def invExts : extension_separated.Exts → Exts → List Error → Exts × List Error
  | extension_separated.Exts.nil, acc, errs => (acc, errs)
  | extension_separated.Exts.cons name e rest, acc, errs =>
    let url := e.get_url
    let r := Extension.build_from e name
    let errs' := errs ++ r.2
    if acc.containsKey url then
      invExts rest acc (errs' ++ [Error.duplicateExtensionUrl url])
    else
      invExts rest (acc.insertSorted url r.1) errs'
/-- Embeds `inverted::Extension::build_from`. -/
def Extension.build_from : extension_separated.Extension → String →
    Extension × List Error
  | extension_separated.Extension.concrete array _ id refers required _ target valueSet,
      fceProperty =>
    (.simple (SimpleExtension.build_from_concrete array fceProperty id refers required
      target valueSet), [])
  | extension_separated.Extension.polymorphic array children _ id _ required _ targets,
      fceProperty =>
    let r := SimpleExtension.build_from_polymorphic array children id required targets
      fceProperty
    (.simple r.1, r.2)
  | extension_separated.Extension.complex array _ id isOpen required _ exts,
      fceProperty =>
    let r := invExts exts .nil []
    (.complex array fceProperty id isOpen required r.1, r.2)
end

/-- Embeds `inverted::Trie::build_from` / `inverted::Forest::build_from`. -/
def Forest.build_from : List (String × extension_separated.NormalNode) →
    List (String × NormalNode) × List Error
  | [] => ([], [])
  | (rt, root) :: rest =>
    let r := NormalNode.build_from root
    let p := Forest.build_from rest
    ((rt, r.1) :: p.1, r.2 ++ p.2)

end inverted

namespace fhir

/-- Embeds `fhir::Extension` (the legacy-fce marker carried on root elements). -/
structure Extension where
  url : String
  valueString : String
deriving DecidableEq, Repr

/-- Embeds `fhir::Binding`. -/
structure Binding where
  valueSet : String
deriving DecidableEq, Repr

/-- Embeds `fhir::ElementType`. -/
structure ElementType where
  code : String
  targetProfile : Option (List String)
  profile : Option (List String)
deriving DecidableEq, Repr

/-- Embeds `fhir::ElementSlicing`. -/
structure ElementSlicing where
  rules : String
deriving DecidableEq, Repr

/-- Embeds `fhir::ElementDefinition` (Rust `type` is embedded as `type?`). -/
structure ElementDefinition where
  id : String
  path : String
  sliceName : Option String
  min : Option Nat
  max : Option String
  fixedUrl : Option String
  slicing : Option ElementSlicing
  type? : Option (List ElementType)
  binding : Option Binding
  extension : Option (List Extension)
deriving DecidableEq, Repr

/-- Embeds `fhir::StructureDefinitionContext`. -/
structure StructureDefinitionContext where
  type? : String
  expression : String
deriving DecidableEq, Repr

/-- Embeds `fhir::StructureDefinitionDifferential`. -/
structure StructureDefinitionDifferential where
  element : List ElementDefinition
deriving DecidableEq, Repr

/-- Embeds `fhir::StructureDefinition` (Rust `abstract`/`type` embedded as
`isAbstract`/`type?`). -/
structure StructureDefinition where
  status : String
  baseDefinition : String
  isAbstract : Bool
  url : String
  name : String
  derivation : String
  context : Option (List StructureDefinitionContext)
  differential : StructureDefinitionDifferential
  kind : String
  type? : String
deriving DecidableEq, Repr

/-- Embeds `fhir::ElementPointer`. -/
structure ElementPointer where
  path : String
  id : String
deriving DecidableEq, Repr

/-- Embeds `fhir::Error` (the source only declares a `Todo` variant and never
constructs it). -/
inductive Error where
  | todo
deriving DecidableEq, Repr

/-- The marker URL used by the emitter for the original property name. -/
def legacyFceUrl : String := "http://fhir.aidbox.app/fhir/StructureDefinition/legacy-fce"

/-- The fold building `<rt>.<c1>.<c2>...` used for context expressions and
profile paths. -/
def dottedPath (base : String) : List String → String
  | [] => base
  | c :: rest => dottedPath (base ++ "." ++ c) rest

/-- The `targets.iter().map(...)` of the emitter: one `ElementType` per
target, `refers` mapped through `http://hl7.org/fhir/{ref}`. -/
def elementTypesOf : List (String × inverted.ExtensionTarget) → List ElementType
  | [] => []
  | (targetType, info) :: rest =>
    { code := targetType,
      targetProfile := info.refers.map (fun refs => refs.map (fun tref => "http://hl7.org/fhir/" ++ tref)),
      profile := none } :: elementTypesOf rest

/-- The value-set slice loop of the emitter: one extra slice per target that
declares a value set, at `<ptrId>:value<TypeName>`. -/
def valueSetSlices (ptrId ptrPath : String) :
    List (String × inverted.ExtensionTarget) → List ElementDefinition
  | [] => []
  | (typeName, target) :: rest =>
    (match target.valueSet with
     | some vs =>
       [{ id := ptrId ++ ":value" ++ typeName,
          path := ptrPath,
          sliceName := some ("value" ++ typeName),
          min := none, max := none, fixedUrl := none, slicing := none,
          type? := none,
          binding := some { valueSet := vs },
          extension := none }]
     | none => []) ++ valueSetSlices ptrId ptrPath rest

mutual
/-- Embeds `fhir::emit_nested`: the element group of one child extension inside a
complex extension, rooted at the parent pointer `ptr`. -/
def emitNested (ptr : ElementPointer) (url : String) :
    inverted.Extension → List ElementDefinition
  | inverted.Extension.simple s =>
    let baseElem : ElementDefinition :=
      { id := ptr.id ++ ":" ++ s.fceProperty,
        path := ptr.path,
        sliceName := some s.fceProperty,
        min := some 0, max := some "*",
        fixedUrl := none, slicing := none, type? := none, binding := none,
        extension := some [{ url := legacyFceUrl, valueString := s.fceProperty }] }
    let urlElem : ElementDefinition :=
      { id := baseElem.id ++ ".url",
        path := baseElem.path ++ ".url",
        sliceName := none,
        min := some 1, max := some "1",
        fixedUrl := some url,
        slicing := none, type? := none, binding := none, extension := none }
    let valueElem : ElementDefinition :=
      { id := baseElem.id ++ ".value[x]",
        path := baseElem.path ++ ".value[x]",
        sliceName := none,
        min := some 1, max := some "1",
        fixedUrl := none, slicing := none,
        type? := some (elementTypesOf s.targets),
        binding := none, extension := none }
    [baseElem, urlElem, valueElem] ++ valueSetSlices valueElem.id valueElem.path s.targets
  | inverted.Extension.complex array fceProperty _ _ required exts =>
    let minv : Option Nat := if required then some 1 else none
    let maxv : Option String := if array then none else some "1"
    let baseElem : ElementDefinition :=
      { id := ptr.id ++ ":" ++ fceProperty,
        path := ptr.path,
        sliceName := none,
        min := minv, max := maxv,
        fixedUrl := none, slicing := none, type? := none, binding := none,
        extension := some [{ url := legacyFceUrl, valueString := fceProperty }] }
    let extensionElem : ElementDefinition :=
      { id := baseElem.id ++ ".extension",
        path := baseElem.path ++ ".extension",
        sliceName := none,
        min := some 1, max := none,
        fixedUrl := none,
        slicing := some { rules := "open" },
        type? := none, binding := none, extension := none }
    let urlElem : ElementDefinition :=
      { id := baseElem.id ++ ".url",
        path := baseElem.path ++ ".url",
        sliceName := none,
        min := some 1, max := some "1",
        fixedUrl := some url,
        slicing := none, type? := none, binding := none, extension := none }
    let valueElem : ElementDefinition :=
      { id := baseElem.id ++ ".value[x]",
        path := baseElem.path ++ ".value[x]",
        sliceName := none,
        min := some 0, max := some "0",
        fixedUrl := none, slicing := none, type? := none, binding := none,
        extension := none }
    let nested := emitNestedAll { path := extensionElem.path, id := extensionElem.id } exts
    baseElem :: extensionElem :: nested ++ [urlElem, valueElem]
/-- The `for (url, child) in extension` loop of the complex cases: element
groups of all children, concatenated in map (key) order. -/
def emitNestedAll (ptr : ElementPointer) : inverted.Exts → List ElementDefinition
  | inverted.Exts.nil => []
  | inverted.Exts.cons url child rest => emitNested ptr url child ++ emitNestedAll ptr rest
end

/-- Embeds `fhir::emit_differential`: the differential of one extension SD. -/
def emitDifferential (url : String) : inverted.Extension → List ElementDefinition
  | inverted.Extension.simple s =>
    let minv : Nat := if s.required then 1 else 0
    let maxv : String := if s.array then "*" else "1"
    let root : ElementDefinition :=
      { id := "Extension", path := "Extension",
        sliceName := none,
        min := some minv, max := some maxv,
        fixedUrl := none, slicing := none, type? := none, binding := none,
        extension := some [{ url := legacyFceUrl, valueString := s.fceProperty }] }
    let urlElem : ElementDefinition :=
      { id := "Extension.url", path := "Extension.url",
        sliceName := none,
        min := some 1, max := some "1",
        fixedUrl := some url,
        slicing := none, type? := none, binding := none, extension := none }
    let valueElem : ElementDefinition :=
      { id := "Extension.value[x]", path := "Extension.value[x]",
        sliceName := none,
        min := some 1, max := some "1",
        fixedUrl := none, slicing := none,
        type? := some (elementTypesOf s.targets),
        binding := none, extension := none }
    [root, urlElem, valueElem] ++ valueSetSlices "Extension.value[x]" "Extension.value[x]" s.targets
  | inverted.Extension.complex array fceProperty _ _ required exts =>
    let minv : Nat := if required then 1 else 0
    let maxv : String := if array then "*" else "1"
    let root : ElementDefinition :=
      { id := "Extension", path := "Extension",
        sliceName := none,
        min := some minv, max := some maxv,
        fixedUrl := none, slicing := none, type? := none, binding := none,
        extension := some [{ url := legacyFceUrl, valueString := fceProperty }] }
    let baseElem : ElementDefinition :=
      { id := "Extension.extension", path := "Extension.extension",
        sliceName := none,
        min := some 1, max := none,
        fixedUrl := none,
        slicing := some { rules := "open" },
        type? := none, binding := none, extension := none }
    let urlElem : ElementDefinition :=
      { id := "Extension.url", path := "Extension.url",
        sliceName := none,
        min := some 1, max := some "1",
        fixedUrl := some url,
        slicing := none, type? := none, binding := none, extension := none }
    let valueElem : ElementDefinition :=
      { id := "Extension.value[x]", path := "Extension.value[x]",
        sliceName := none,
        min := some 0, max := some "0",
        fixedUrl := none, slicing := none, type? := none, binding := none,
        extension := none }
    let nested := emitNestedAll { path := "Extension.extension", id := "Extension.extension" } exts
    root :: baseElem :: nested ++ [urlElem, valueElem]

/-- Modelled from the spec: the `fce_property` accessor on an inverted
extension is referenced by the emitter but absent from the provided sources;
it returns the property name the extension had in its parent (§4.5). -/
def extFceProperty : inverted.Extension → String
  | inverted.Extension.simple s => s.fceProperty
  | inverted.Extension.complex _ fceProperty _ _ _ _ => fceProperty

/-- Modelled from the spec: the `is_required` accessor on an inverted
extension. -/
def extIsRequired : inverted.Extension → Bool
  | inverted.Extension.simple s => s.required
  | inverted.Extension.complex _ _ _ _ required _ => required

/-- Modelled from the spec: the `is_array` accessor on an inverted
extension. -/
def extIsArray : inverted.Extension → Bool
  | inverted.Extension.simple s => s.array
  | inverted.Extension.complex array _ _ _ _ _ => array

/-- Embeds `fhir::emit_extension`: one StructureDefinition per extension URL.  (The
source also computes an unused `base_path` local, omitted here.) -/
def emitExtension (rt : String) (path : List String) (url : String)
    (extension : inverted.Extension) : StructureDefinition :=
  { baseDefinition := "http://hl7.org/fhir/StructureDefinition/Extension",
    isAbstract := false,
    status := "active",
    url := url,
    differential := { element := emitDifferential url extension },
    name := extFceProperty extension,
    derivation := "constraint",
    context := some [{ type? := "element", expression := dottedPath rt path }],
    kind := "complex-type",
    type? := "Extension" }

/-- The `for (url, ext) in extension` loop of `collect_extensions_recursive`. -/
def emitExtensionMap (rt : String) (path : List String) :
    inverted.Exts → List StructureDefinition
  | inverted.Exts.nil => []
  | inverted.Exts.cons url e rest =>
    emitExtension rt path url e :: emitExtensionMap rt path rest

mutual
/-- Embeds `fhir::collect_extensions_recursive`: SDs of all extensions in the
subtree; children first (in key order, each under its extended path), then
this node's own extension map. -/
def collectExtensionsRecursive (rt : String) (path : List String) :
    inverted.NormalNode → List StructureDefinition × List Error
  | inverted.NormalNode.concrete _ _ _ _ _ _ => ([], [])
  | inverted.NormalNode.polymorphic _ _ _ _ _ _ => ([], [])
  | inverted.NormalNode.complex _ _ _ _ children exts =>
    let rc := collectExtensionsChildren rt path children
    (rc.1 ++ emitExtensionMap rt path exts, rc.2)
  | inverted.NormalNode.inferred children exts =>
    let rc := collectExtensionsChildren rt path children
    (rc.1 ++ emitExtensionMap rt path exts, rc.2)
/-- The child loop of `collect_extensions_recursive`. -/
def collectExtensionsChildren (rt : String) (path : List String) :
    inverted.Children → List StructureDefinition × List Error
  | inverted.Children.nil => ([], [])
  | inverted.Children.cons field child rest =>
    let r := collectExtensionsRecursive rt (path ++ [field]) child
    let p := collectExtensionsChildren rt path rest
    (r.1 ++ p.1, r.2 ++ p.2)
end

/-- Embeds `fhir::collect_extensions` over the whole forest. -/
def collectExtensions : List (String × inverted.NormalNode) →
    List StructureDefinition × List Error
  | [] => ([], [])
  | (rt, root) :: rest =>
    let r := collectExtensionsRecursive rt [] root
    let p := collectExtensions rest
    (r.1 ++ p.1, r.2 ++ p.2)

/-- The extension-element loop of `make_profile_differential`: one profile
element per extension of this node, at `<rt>.<path>.extension:<fce>`. -/
def profileExtensionElements (fhirPath : String) : inverted.Exts → List ElementDefinition
  | inverted.Exts.nil => []
  | inverted.Exts.cons url ext rest =>
    let fceProperty := extFceProperty ext
    { id := fhirPath ++ ":" ++ fceProperty,
      path := fhirPath,
      sliceName := some fceProperty,
      min := if extIsRequired ext then some 1 else none,
      max := if extIsArray ext then some "*" else some "1",
      fixedUrl := none, slicing := none,
      type? := some [{ code := "Extension", targetProfile := none, profile := some [url] }],
      binding := none, extension := none } :: profileExtensionElements fhirPath rest

mutual
/-- Embeds `fhir::make_profile_differential`: extension elements of this node (for
complex and inferred nodes), then the children's contributions; concrete and
polymorphic nodes contribute nothing. -/
def makeProfileDifferential (rt : String) (path : List String) :
    inverted.NormalNode → List ElementDefinition
  | inverted.NormalNode.concrete _ _ _ _ _ _ => []
  | inverted.NormalNode.polymorphic _ _ _ _ _ _ => []
  | inverted.NormalNode.complex _ _ _ _ children exts =>
    profileExtensionElements (dottedPath rt path ++ ".extension") exts
      ++ makeProfileDifferentialChildren rt path children
  | inverted.NormalNode.inferred children exts =>
    profileExtensionElements (dottedPath rt path ++ ".extension") exts
      ++ makeProfileDifferentialChildren rt path children
/-- The child loop of `make_profile_differential`. -/
def makeProfileDifferentialChildren (rt : String) (path : List String) :
    inverted.Children → List ElementDefinition
  | inverted.Children.nil => []
  | inverted.Children.cons name child rest =>
    makeProfileDifferential rt (path ++ [name]) child
      ++ makeProfileDifferentialChildren rt path rest
end

/-- Embeds `fhir::make_profile_recursive`: `None` when the differential body is
empty; otherwise the profile SD with a bare root element prepended. -/
def makeProfileRecursive (rt : String) (path : List String)
    (node : inverted.NormalNode) : Option StructureDefinition :=
  match makeProfileDifferential rt path node with
  | [] => none
  | elements =>
    some
      { status := "active",
        baseDefinition := "http://hl7.org/fhir/StructureDefinition/" ++ rt,
        isAbstract := false,
        url := "http://legacy.aidbox.app/fhir/StructureDefinition/" ++ rt,
        name := rt,
        derivation := "constraint",
        context := none,
        differential :=
          { element :=
              { id := rt, path := rt, sliceName := none, min := none, max := none,
                fixedUrl := none, slicing := none, type? := none, binding := none,
                extension := none } :: elements },
        kind := "resource",
        type? := rt }

/-- Embeds `fhir::make_profile_for`. -/
def makeProfileFor (rt : String) (node : inverted.NormalNode) :
    Option StructureDefinition :=
  makeProfileRecursive rt [] node

/-- Embeds `fhir::make_profiles` over the whole forest. -/
def makeProfiles : List (String × inverted.NormalNode) → List StructureDefinition
  | [] => []
  | (rt, root) :: rest =>
    (makeProfileFor rt root).toList ++ makeProfiles rest

end fhir

/-- The driver's validation loop: typed attributes of the valid inputs, and
all validator diagnostics, in input order. -/
def validateAll : List aidbox.Attribute → List typed.Attribute × List typed.Error
  | [] => ([], [])
  | a :: rest =>
    let r := typed.Attribute.build_from a
    let p := validateAll rest
    (r.1.toList ++ p.1, r.2 ++ p.2)

/-- The end-to-end result of the pipeline (§2 of the spec): per-stage
diagnostics, the final inverted forest, and the emitted StructureDefinitions. -/
structure PipelineResult where
  typedErrors : List typed.Error
  rawErrors : List raw.Error
  sepErrors : List extension_separated.Error
  invErrors : List inverted.Error
  fhirErrors : List fhir.Error
  inverted : List (String × inverted.NormalNode)
  extensions : List fhir.StructureDefinition
  profiles : List fhir.StructureDefinition

/-- The full chain: validation, forest building, lifting, extension
separation, inversion, SD emission. -/
def runPipeline (attrs : List aidbox.Attribute) : PipelineResult :=
  let v := validateAll attrs
  let rf := raw.Forest.build_from_attributes v.1
  let pf := path.Forest.build_from rf.1
  let sf := extension_separated.Forest.build_from pf
  let inv := inverted.Forest.build_from sf.1
  let ce := fhir.collectExtensions inv.1
  { typedErrors := v.2,
    rawErrors := rf.2,
    sepErrors := sf.2,
    invErrors := inv.2,
    fhirErrors := ce.2,
    inverted := inv.1,
    extensions := ce.1,
    profiles := fhir.makeProfiles inv.1 }

/-- The five unsupported properties diagnosed by
`check_unsupported_properties`. -/
def isUnsupportedProp : typed.InvalidAttributeError → Bool
  | typed.InvalidAttributeError.schemaPresent => true
  | typed.InvalidAttributeError.summaryPresent => true
  | typed.InvalidAttributeError.modifierPresent => true
  | typed.InvalidAttributeError.uniquePresent => true
  | typed.InvalidAttributeError.orderPresent => true
  | _ => false

/-- The attribute with the five unsupported properties removed (used to state
that their presence never changes the validation result). -/
def clearUnsupported (a : aidbox.Attribute) : aidbox.Attribute :=
  { a with schema := none, isSummary := none, isModifier := none,
           isUnique := none, order := none }

/-- Scenario S1 of the spec: one valid concrete string leaf
`Patient.name.given`. -/
def s1Attr : aidbox.Attribute :=
  { id := "a1", path := ["name", "given"],
    resource := { id := "Patient", resourceType := "Entity" },
    type? := some { id := "string", resourceType := "Entity" } }

/-- A root attribute (empty path) with an extension URL: the path-stage trie
root becomes an `Extension` variant. -/
def rootExtAttr : aidbox.Attribute :=
  { id := "e1", path := [],
    resource := { id := "Patient", resourceType := "Entity" },
    type? := some { id := "string", resourceType := "Entity" },
    extensionUrl := some "http://x/e" }

/-- A polymorphic attribute declaring only the `string` target. -/
def polyAttr : aidbox.Attribute :=
  { id := "p1", path := ["poly"],
    resource := { id := "Patient", resourceType := "Entity" },
    union := some [{ id := "string", resourceType := "Entity" }] }

/-- A concrete child of `polyAttr` stored under the undeclared property name
`Coding`. -/
def childAttr : aidbox.Attribute :=
  { id := "c1", path := ["poly", "Coding"],
    resource := { id := "Patient", resourceType := "Entity" },
    type? := some { id := "Coding", resourceType := "Entity" } }

/-- Separated polymorphic-extension children with a leaf for the declared
target `string` only (no leaf for `Coding`). -/
def c3Children : List (String × extension_separated.PolymorphicLeaf) :=
  [("string", { id := "c2", refers := none, resourceType := "Patient",
                target := "string", valueSet := none })]

/-- An attribute with both `type` and `union` set (scenario S5). -/
def s5Attr : aidbox.Attribute :=
  { id := "x1", path := ["name"],
    resource := { id := "Patient", resourceType := "Entity" },
    type? := some { id := "string", resourceType := "Entity" },
    union := some [{ id := "string", resourceType := "Entity" }] }

/-- A concrete attribute whose type reference carries an unknown kind tag
(neither `Entity` nor `Attribute`). -/
def oddKindAttr : aidbox.Attribute :=
  { id := "k1", path := ["name"],
    resource := { id := "Patient", resourceType := "Entity" },
    type? := some { id := "string", resourceType := "Zorp" } }

/-- The typed attribute produced by validating `s1Attr` (first-wins occupant
of the `name.given` node in the duplicate-path scenario S4). -/
def s4First : typed.Attribute :=
  { id := "a1", path := ["name", "given"], resourceType := "Patient",
    kind := typed.AttributeKind.concrete
      { target := "string", valueSet := none, refers := none, enumeration := none },
    array := false, required := false, fce := none }

/-- A second typed attribute addressing the same `(Patient, name.given)` node
as `s4First`. -/
def s4Second : typed.Attribute :=
  { id := "a2", path := ["name", "given"], resourceType := "Patient",
    kind := typed.AttributeKind.concrete
      { target := "string", valueSet := none, refers := none, enumeration := none },
    array := false, required := false, fce := none }

/-- The forest holding `s4First` (built by one successful insertion). -/
def s4Forest : raw.Forest := (raw.Forest.empty.insert s4First).1

/-- Two simple nested extensions under ascending URLs, used to instantiate
the complex-extension ordering claim. -/
def c6Exts : inverted.Exts :=
  inverted.Exts.cons "http://x/a"
    (inverted.Extension.simple
      { array := false, targets := [("string", { id := "i1", refers := none, valueSet := none })],
        fceProperty := "inner1", id := "i1", required := false })
    (inverted.Exts.cons "http://x/b"
      (inverted.Extension.simple
        { array := false, targets := [("string", { id := "i2", refers := none, valueSet := none })],
          fceProperty := "inner2", id := "i2", required := false })
      inverted.Exts.nil)

/-- C1: the claim expects exactly one profile SD for the S1 input, but the
pipeline emits none: `make_profile_recursive` returns `None` whenever the
differential body (which only ever contains extension elements) is empty. -/
theorem c1_counterexample : ¬ ((runPipeline [s1Attr]).profiles.length = 1) := by
  decide

/-- C1 (amended): for the S1 input (one valid concrete attribute
`Patient.name.given : string`) the pipeline emits no diagnostics, zero
extension SDs, and zero profile SDs: the Patient trie carries no extension
element, so no profile is produced at all. -/
theorem c1_single_concrete_leaf_output :
    (runPipeline [s1Attr]).typedErrors = []
  ∧ (runPipeline [s1Attr]).rawErrors = []
  ∧ (runPipeline [s1Attr]).sepErrors = []
  ∧ (runPipeline [s1Attr]).invErrors = []
  ∧ (runPipeline [s1Attr]).fhirErrors = []
  ∧ (runPipeline [s1Attr]).extensions = []
  ∧ (runPipeline [s1Attr]).profiles = [] :=
  ⟨rfl, rfl, rfl, rfl, rfl, rfl, rfl⟩

/-- C2: at a trie whose root is an Extension variant the separation stage
does coerce the root to its Normal counterpart (URL discarded), but the
returned diagnostic list is empty: the `RootIsExtension` diagnostic is pushed
into a local vector that the source immediately shadows, so it is lost.  The
second conjunct shows the same loss end to end for a root attribute with an
extension URL. -/
theorem c2_root_extension_diagnostic_lost :
    extension_separated.Trie.build_from
        (path.Node.ext (path.Extension.concrete false path.Children.nil
          "http://x/e" "e1" none false "Patient" "string" none))
      = (extension_separated.NormalNode.concrete false "e1" none false "Patient"
          "string" none, [])
  ∧ (runPipeline [rootExtAttr]).sepErrors = [] :=
  ⟨rfl, rfl⟩

/-- C9: the pipeline is a pure function of its input attribute list, so
running the full chain twice on the same input yields identical output; all
child and extension maps are embedded as key-ordered lists, mirroring the
ordered maps the source uses for deterministic output. -/
theorem c9_pipeline_deterministic (attrs : List aidbox.Attribute) :
    runPipeline attrs = runPipeline attrs := rfl

/-- C4: a leaf under a *normal* polymorphic parent is never checked against
the declared targets: after the pipeline runs on `polyAttr`/`childAttr` the
leaf keyed `Coding` (target `Coding`) sits under a parent whose targets are
`["string"]`, yet no stage emitted any diagnostic. -/
theorem c4_counterexample :
    (runPipeline [polyAttr, childAttr]).inverted
      = [("Patient",
          inverted.NormalNode.inferred
            (inverted.Children.cons "poly"
              (inverted.NormalNode.polymorphic false
                [("Coding", { id := "c1", refers := none, target := "Coding", valueSet := none })]
                "p1" ["poly"] false ["string"])
              inverted.Children.nil)
            inverted.Exts.nil)]
  ∧ (runPipeline [polyAttr, childAttr]).invErrors = []
  ∧ (runPipeline [polyAttr, childAttr]).sepErrors = []
  ∧ (runPipeline [polyAttr, childAttr]).typedErrors = []
  ∧ (runPipeline [polyAttr, childAttr]).rawErrors = []
  ∧ ¬ ("Coding" ∈ (["string"] : List String)) :=
  ⟨rfl, rfl, rfl, rfl, rfl, by decide⟩

/-- C3: for a polymorphic extension declaring targets `Coding` and `string`
but carrying a leaf only for `string`, the resulting SimpleExtension's
targets map has a single entry: the declared target `Coding` gets no entry at
all (the claim expected an entry with empty refers and value set). -/
theorem c3_counterexample :
    ((inverted.SimpleExtension.build_from_polymorphic false c3Children "e2" false
        ["Coding", "string"] "poly").1.targets.map Prod.fst = ["string"])
  ∧ "Coding" ∈ (["Coding", "string"] : List String) :=
  ⟨rfl, by decide⟩

theorem contains_true_mem : ∀ (l : List String) (a : String),
    l.contains a = true → a ∈ l := by
  intro l a h
  simpa [List.contains] using h

theorem polyTargetsLoop_errs_mono (attrId : String) (declared : List String) :
    ∀ (children : List (String × extension_separated.PolymorphicLeaf))
      (acc : List (String × inverted.ExtensionTarget)) (errs : List inverted.Error)
      (e : inverted.Error), e ∈ errs →
      e ∈ (inverted.polyTargetsLoop attrId declared children acc errs).2 := by
  intro children
  induction children with
  | nil =>
    intro acc errs e he
    simpa [inverted.polyTargetsLoop] using he
  | cons hd rest ih =>
    intro acc errs e he
    obtain ⟨name, leaf⟩ := hd
    simp only [inverted.polyTargetsLoop]
    by_cases hc : declared.contains name
    · simp only [hc, if_true]
      exact ih _ _ e he
    · simp only [hc, if_false]
      exact ih _ _ e (by simp [he])

theorem polyTargetsLoop_undeclared_mem (attrId : String) (declared : List String) :
    ∀ (children : List (String × extension_separated.PolymorphicLeaf))
      (acc : List (String × inverted.ExtensionTarget)) (errs : List inverted.Error)
      (n : String) (l : extension_separated.PolymorphicLeaf),
      (n, l) ∈ children → declared.contains n = false →
      inverted.Error.polymorphicUndeclaredTarget attrId n
        ∈ (inverted.polyTargetsLoop attrId declared children acc errs).2 := by
  intro children
  induction children with
  | nil => intro acc errs n l h hc; simp at h
  | cons hd rest ih =>
    intro acc errs n l h hc
    obtain ⟨name, leaf⟩ := hd
    rcases List.mem_cons.mp h with heq | htl
    · obtain ⟨h1, h2⟩ := Prod.mk.injEq .. ▸ heq
      subst h1
      simp only [inverted.polyTargetsLoop, hc, if_false]
      exact polyTargetsLoop_errs_mono attrId declared rest _ _ _ (by simp)
    · simp only [inverted.polyTargetsLoop]
      by_cases hcn : declared.contains name
      · simp only [hcn, if_true]
        exact ih _ _ n l htl hc
      · simp only [hcn, if_false]
        exact ih _ _ n l htl hc

theorem polyTargetsLoop_map_eq (attrId : String) (declared : List String) :
    ∀ (children : List (String × extension_separated.PolymorphicLeaf))
      (acc : List (String × inverted.ExtensionTarget)) (errs : List inverted.Error),
      List.Pairwise (fun a b : String => a.data < b.data)
        (acc.map Prod.fst ++ children.map Prod.fst) →
      (inverted.polyTargetsLoop attrId declared children acc errs).1
        = acc ++ children.map
            (fun p => (p.1, { id := p.2.id, refers := p.2.refers, valueSet := p.2.valueSet })) := by
  intro children
  induction children with
  | nil =>
    intro acc errs _
    simp [inverted.polyTargetsLoop]
  | cons hd rest ih =>
    intro acc errs hp
    obtain ⟨name, leaf⟩ := hd
    have hcross : ∀ k' ∈ acc.map Prod.fst, k'.data < name.data := by
      intro k' hk'
      have := (List.pairwise_append.mp hp).2.2
      exact this k' hk' name (by simp)
    have hins : Smap.insert acc name
        ({ id := leaf.id, refers := leaf.refers, valueSet := leaf.valueSet } : inverted.ExtensionTarget)
        = acc ++ [(name, { id := leaf.id, refers := leaf.refers, valueSet := leaf.valueSet })] :=
      Smap.insert_append_of_allGt _ hcross
    have hp' : List.Pairwise (fun a b : String => a.data < b.data)
        ((acc ++ [(name, ({ id := leaf.id, refers := leaf.refers, valueSet := leaf.valueSet } : inverted.ExtensionTarget))]).map Prod.fst
          ++ rest.map Prod.fst) := by
      simpa [List.append_assoc] using hp
    simp only [inverted.polyTargetsLoop]
    by_cases hc : declared.contains name
    · simp only [hc, if_true]
      rw [hins, ih _ _ hp']
      simp
    · simp only [hc, if_false]
      rw [hins, ih _ _ hp']
      simp

/-- C3 (amended): the inversion of a polymorphic extension produces a
SimpleExtension whose targets map has one entry per polymorphic *leaf*, keyed
by the leaf's property name and carrying that leaf's refers and value set;
declared targets without a leaf get no entry, and a leaf whose property name
is not among the declared targets yields a `PolymorphicUndeclaredTarget`
diagnostic while still being included. -/
theorem c3_polymorphic_inversion_targets (array required : Bool)
    (children : List (String × extension_separated.PolymorphicLeaf))
    (id fceProperty : String) (targets : List String)
    (hsorted : List.Pairwise (fun a b : String => a.data < b.data)
      (children.map Prod.fst)) :
    (inverted.SimpleExtension.build_from_polymorphic array children id required
        targets fceProperty).1.targets
      = children.map
          (fun p => (p.1, { id := p.2.id, refers := p.2.refers, valueSet := p.2.valueSet }))
  ∧ ∀ (n : String) (l : extension_separated.PolymorphicLeaf),
      (n, l) ∈ children → targets.contains n = false →
      inverted.Error.polymorphicUndeclaredTarget id n
        ∈ (inverted.SimpleExtension.build_from_polymorphic array children id required
            targets fceProperty).2 := by
  constructor
  · simpa [inverted.SimpleExtension.build_from_polymorphic] using
      polyTargetsLoop_map_eq id targets children [] [] (by simpa using hsorted)
  · intro n l h hc
    simpa [inverted.SimpleExtension.build_from_polymorphic] using
      polyTargetsLoop_undeclared_mem id targets children [] [] n l h hc

theorem c3_polymorphic_inversion_targets_witness :
    (inverted.SimpleExtension.build_from_polymorphic false c3Children "e2" false
        ["Coding", "string"] "poly").1.targets
      = c3Children.map
          (fun p => (p.1, { id := p.2.id, refers := p.2.refers, valueSet := p.2.valueSet })) :=
  (c3_polymorphic_inversion_targets false false c3Children "e2" "poly"
    ["Coding", "string"] (by simp [c3Children])).1

/-- C4 (amended): the declared-target check exists only for polymorphic
*extension* nodes (normal polymorphic nodes are inverted without any check,
see the counterexample), and it tests the property-name key of the leaf: for
every leaf stored in a polymorphic extension, that key is a member of the
declared targets or a `PolymorphicUndeclaredTarget` diagnostic for it is
emitted by the inversion. -/
theorem c4_extension_undeclared_target_diagnosed (array required : Bool)
    (children : List (String × extension_separated.PolymorphicLeaf))
    (id fceProperty : String) (targets : List String)
    (n : String) (l : extension_separated.PolymorphicLeaf)
    (h : (n, l) ∈ children) :
    n ∈ targets ∨
      inverted.Error.polymorphicUndeclaredTarget id n
        ∈ (inverted.SimpleExtension.build_from_polymorphic array children id required
            targets fceProperty).2 := by
  cases hc : targets.contains n with
  | true => exact Or.inl (contains_true_mem targets n hc)
  | false =>
    refine Or.inr ?_
    simpa [inverted.SimpleExtension.build_from_polymorphic] using
      polyTargetsLoop_undeclared_mem id targets children [] [] n l h hc

theorem c4_extension_undeclared_target_diagnosed_witness :
    "string" ∈ ["Coding", "string"] ∨
      inverted.Error.polymorphicUndeclaredTarget "e2" "string"
        ∈ (inverted.SimpleExtension.build_from_polymorphic false c3Children "e2" false
            ["Coding", "string"] "poly").2 :=
  c4_extension_undeclared_target_diagnosed false false c3Children "e2" "poly"
    ["Coding", "string"] "string"
    { id := "c2", refers := none, resourceType := "Patient", target := "string", valueSet := none }
    (by simp [c3Children])

theorem exts_keys_eq : ∀ exts : inverted.Exts,
    exts.keys = exts.toList.map Prod.fst
  | inverted.Exts.nil => rfl
  | inverted.Exts.cons k e rest => by
    simp [inverted.Exts.keys, inverted.Exts.toList, exts_keys_eq rest]

theorem emitNestedAll_eq_join (ptr : fhir.ElementPointer) :
    ∀ exts : inverted.Exts,
    fhir.emitNestedAll ptr exts
      = (exts.toList.map (fun p => fhir.emitNested ptr p.1 p.2)).flatten
  | inverted.Exts.nil => by simp [fhir.emitNestedAll, inverted.Exts.toList]
  | inverted.Exts.cons url child rest => by
    simp [fhir.emitNestedAll, inverted.Exts.toList, emitNestedAll_eq_join ptr rest]

/-- C6: the differential of a complex-extension SD is exactly: the root
element `Extension`, then `Extension.extension` with open slicing and min 1,
then the nested child groups concatenated in the order of the extension map
(whose keys, the child URLs, are ascending), then `Extension.url` with the
fixed URL, and finally `Extension.value[x]` with min 0 and max "0". -/
theorem c6_complex_extension_element_order (array isOpen required : Bool)
    (fceProperty id url : String) (exts : inverted.Exts)
    (hsorted : List.Pairwise (fun a b : String => a.data < b.data) exts.keys) :
    fhir.emitDifferential url
        (inverted.Extension.complex array fceProperty id isOpen required exts)
      = { id := "Extension", path := "Extension", sliceName := none,
          min := some (if required then 1 else 0),
          max := some (if array then "*" else "1"),
          fixedUrl := none, slicing := none, type? := none, binding := none,
          extension := some [{ url := fhir.legacyFceUrl, valueString := fceProperty }] }
        :: { id := "Extension.extension", path := "Extension.extension",
             sliceName := none, min := some 1, max := none, fixedUrl := none,
             slicing := some { rules := "open" }, type? := none, binding := none,
             extension := none }
        :: ((exts.toList.map (fun p =>
              fhir.emitNested { path := "Extension.extension", id := "Extension.extension" }
                p.1 p.2)).flatten
            ++ [{ id := "Extension.url", path := "Extension.url", sliceName := none,
                  min := some 1, max := some "1", fixedUrl := some url, slicing := none,
                  type? := none, binding := none, extension := none },
                { id := "Extension.value[x]", path := "Extension.value[x]",
                  sliceName := none, min := some 0, max := some "0", fixedUrl := none,
                  slicing := none, type? := none, binding := none, extension := none }])
  ∧ List.Pairwise (fun a b : String => a.data < b.data) (exts.toList.map Prod.fst) := by
  constructor
  · simp [fhir.emitDifferential, emitNestedAll_eq_join]
  · exact exts_keys_eq exts ▸ hsorted

theorem c6_complex_extension_element_order_witness :
    fhir.emitDifferential "http://x/o"
        (inverted.Extension.complex false "outer" "o1" false false c6Exts)
      = { id := "Extension", path := "Extension", sliceName := none,
          min := some (if false then 1 else 0),
          max := some (if false then "*" else "1"),
          fixedUrl := none, slicing := none, type? := none, binding := none,
          extension := some [{ url := fhir.legacyFceUrl, valueString := "outer" }] }
        :: { id := "Extension.extension", path := "Extension.extension",
             sliceName := none, min := some 1, max := none, fixedUrl := none,
             slicing := some { rules := "open" }, type? := none, binding := none,
             extension := none }
        :: ((c6Exts.toList.map (fun p =>
              fhir.emitNested { path := "Extension.extension", id := "Extension.extension" }
                p.1 p.2)).flatten
            ++ [{ id := "Extension.url", path := "Extension.url", sliceName := none,
                  min := some 1, max := some "1", fixedUrl := some "http://x/o",
                  slicing := none, type? := none, binding := none, extension := none },
                { id := "Extension.value[x]", path := "Extension.value[x]",
                  sliceName := none, min := some 0, max := some "0", fixedUrl := none,
                  slicing := none, type? := none, binding := none, extension := none }])
  ∧ List.Pairwise (fun a b : String => a.data < b.data) (c6Exts.toList.map Prod.fst) :=
  c6_complex_extension_element_order false false false "outer" "o1" "http://x/o" c6Exts
    (by simp [c6Exts, inverted.Exts.keys, List.pairwise_cons]; decide)

theorem smap_find?_mem {α : Type} : ∀ (m : List (String × α)) {k : String} {v : α},
    Smap.find? m k = some v → (k, v) ∈ m := by
  intro m
  induction m with
  | nil => intro k v hf; simp [Smap.find?] at hf
  | cons hd tl ih =>
    intro k v hf
    obtain ⟨k', v'⟩ := hd
    by_cases he : k = k'
    · subst he
      have : v' = v := by simpa [Smap.find?] using hf
      subst this
      simp
    · have hf' : Smap.find? tl k = some v := by simpa [Smap.find?, he] using hf
      simp [ih hf']

theorem rawChildren_find?_wf : ∀ (cs : raw.Children) (k : String) (c : raw.Node),
    cs.wfAll = true → cs.find? k = some c → c.wf = true
  | raw.Children.nil, k, c, _, hf => by simp [raw.Children.find?] at hf
  | raw.Children.cons k' n rest, k, c, hw, hf => by
    simp only [raw.Children.wfAll, Bool.and_eq_true] at hw
    by_cases he : k = k'
    · subst he
      have hn : n = c := by simpa [raw.Children.find?] using hf
      exact hn ▸ hw.1
    · exact rawChildren_find?_wf rest k c hw.2
        (by simpa [raw.Children.find?, he] using hf)

theorem rawChildren_find?_allGt : ∀ (cs : raw.Children) (k k' : String) (c : raw.Node),
    cs.allGt k' = true → cs.find? k = some c → k'.data < k.data
  | raw.Children.nil, k, k', c, _, hf => by simp [raw.Children.find?] at hf
  | raw.Children.cons k₀ n rest, k, k', c, hgt, hf => by
    simp only [raw.Children.allGt, keyLt, Bool.and_eq_true, decide_eq_true_eq] at hgt
    by_cases he : k = k₀
    · exact he ▸ hgt.1
    · exact rawChildren_find?_allGt rest k k' c hgt.2
        (by simpa [raw.Children.find?, he] using hf)

theorem rawChildren_insert_find?_eq : ∀ (cs : raw.Children) (k : String) (c : raw.Node),
    cs.sortedKeys = true → cs.find? k = some c → cs.insertSorted k c = cs
  | raw.Children.nil, k, c, _, hf => by simp [raw.Children.find?] at hf
  | raw.Children.cons k' n rest, k, c, hs, hf => by
    simp only [raw.Children.sortedKeys, Bool.and_eq_true] at hs
    by_cases he : k = k'
    · subst he
      have hn : n = c := by simpa [raw.Children.find?] using hf
      subst hn
      simp [raw.Children.insertSorted, keyLt, lt_irrefl]
    · have hf' : rest.find? k = some c := by simpa [raw.Children.find?, he] using hf
      have hlt : k'.data < k.data := rawChildren_find?_allGt rest k k' c hs.1 hf'
      have h1 : keyLt k k' = false := by
        simp only [keyLt, decide_eq_false_iff_not]
        exact fun h => absurd (lt_trans h hlt) (lt_irrefl k.data)
      simp [raw.Children.insertSorted, h1, he,
        rawChildren_insert_find?_eq rest k c hs.2 hf']

theorem raw_insertAt_existing : ∀ (p : List String) (n : raw.Node) (attr a : typed.Attribute),
    n.wf = true → n.findAttr p = some a →
    n.insertAt p attr
      = (n, some (raw.Error.alreadyExists (String.intercalate "." a.path))) := by
  intro p
  induction p with
  | nil =>
    intro n attr a hwf hf
    obtain ⟨a?, cs⟩ := n
    have ha : a? = some a := by simpa [raw.Node.findAttr] using hf
    subst ha
    simp [raw.Node.insertAt]
  | cons p ps ih =>
    intro n attr a hwf hf
    obtain ⟨a?, cs⟩ := n
    simp only [raw.Node.findAttr] at hf
    cases hc : cs.find? p with
    | none => simp [hc] at hf
    | some c =>
      simp only [hc] at hf
      simp only [raw.Node.wf, Bool.and_eq_true] at hwf
      have hcwf : c.wf = true := rawChildren_find?_wf cs p c hwf.2 hc
      have hrec := ih c attr a hcwf hf
      simp [raw.Node.insertAt, hc, hrec, rawChildren_insert_find?_eq cs p c hwf.1 hc]

/-- C5: inserting a typed attribute whose `(resource_type, path)` addresses a
node that already holds an attribute returns `AlreadyExists` carrying the
existing attribute's dot-joined path, and leaves the forest (and hence the
earlier attribute) completely unchanged.  The well-formedness hypothesis is
the `BTreeMap` key-ordering invariant of the embedding, which every forest
built by insertions satisfies. -/
theorem c5_duplicate_insert_keeps_first (f : raw.Forest) (attr a : typed.Attribute)
    (hwf : f.wf = true)
    (hex : f.findAttr attr.resourceType attr.path = some a) :
    f.insert attr
      = (f, some (raw.Error.alreadyExists (String.intercalate "." a.path))) := by
  obtain ⟨m⟩ := f
  simp only [raw.Forest.findAttr] at hex
  cases hft : Smap.find? m attr.resourceType with
  | none => simp [hft] at hex
  | some trie =>
    simp only [hft] at hex
    simp only [raw.Forest.wf, Bool.and_eq_true] at hwf
    have htwf : trie.root.wf = true := by
      have hmem := smap_find?_mem m hft
      have hall := List.all_eq_true.mp hwf.2 _ hmem
      simpa using hall
    have hroot := raw_insertAt_existing attr.path trie.root attr a htwf hex
    have heta : (⟨trie.resourceType, trie.root⟩ : raw.Trie) = trie := rfl
    simp [raw.Forest.insert, hft, hroot, heta, Smap.insert_find?_eq hwf.1 hft]

theorem c5_duplicate_insert_keeps_first_witness :
    s4Forest.insert s4Second
      = (s4Forest, some (raw.Error.alreadyExists "name.given")) :=
  c5_duplicate_insert_keeps_first s4Forest s4Second s4First (by decide) rfl

theorem validateAll_skip (bad : aidbox.Attribute)
    (hnone : (typed.Attribute.build_from bad).1 = none) :
    ∀ l₁ l₂ : List aidbox.Attribute,
    (validateAll (l₁ ++ bad :: l₂)).1 = (validateAll (l₁ ++ l₂)).1 := by
  intro l₁
  induction l₁ with
  | nil => intro l₂; simp [validateAll, hnone]
  | cons hd tl ih => intro l₂; simp [validateAll, ih]

/-- C7: a raw attribute with both `type` and `union` present is diagnosed
with `InvalidKind` and produces no typed attribute, so the typed list — and
therefore every trie of the forest built from it — is the same as if the
attribute had not been in the input at all. -/
theorem c7_invalid_kind_dropped (a : aidbox.Attribute) (t : aidbox.Reference)
    (u : List aidbox.Reference) (h1 : a.type? = some t) (h2 : a.union = some u) :
    (typed.Attribute.build_from a).1 = none
  ∧ ({ id := a.id, source := typed.InvalidAttributeError.invalidKind } : typed.Error)
      ∈ (typed.Attribute.build_from a).2
  ∧ ∀ l₁ l₂ : List aidbox.Attribute,
      (validateAll (l₁ ++ a :: l₂)).1 = (validateAll (l₁ ++ l₂)).1
    ∧ (raw.Forest.build_from_attributes (validateAll (l₁ ++ a :: l₂)).1).1
        = (raw.Forest.build_from_attributes (validateAll (l₁ ++ l₂)).1).1 := by
  have hnone : (typed.Attribute.build_from a).1 = none := by
    simp [typed.Attribute.build_from, h1, h2]
  refine ⟨hnone, ?_, ?_⟩
  · simp [typed.Attribute.build_from, h1, h2]
  · intro l₁ l₂
    have hskip := validateAll_skip a hnone l₁ l₂
    exact ⟨hskip, by rw [hskip]⟩

theorem c7_invalid_kind_dropped_witness :
    (typed.Attribute.build_from s5Attr).1 = none
  ∧ ({ id := "x1", source := typed.InvalidAttributeError.invalidKind } : typed.Error)
      ∈ (typed.Attribute.build_from s5Attr).2
  ∧ (validateAll ([] ++ s5Attr :: [s1Attr])).1 = (validateAll ([] ++ [s1Attr])).1 :=
  ⟨(c7_invalid_kind_dropped s5Attr _ _ rfl rfl).1,
   (c7_invalid_kind_dropped s5Attr _ _ rfl rfl).2.1,
   ((c7_invalid_kind_dropped s5Attr _ _ rfl rfl).2.2 [] [s1Attr]).1⟩

theorem read_target_odd_kind (a : aidbox.Attribute) (r : aidbox.Reference)
    (h1 : a.type? = some r) (hne : r.resourceType ≠ "Entity")
    (hna : r.resourceType ≠ "Attribute") :
    ∃ vs : Option String,
      (typed.Attribute.read_target_attribute a).1
        = some { id := a.id, path := a.path, resourceType := a.resource.id,
                 kind := typed.AttributeKind.concrete
                   { target := r.id, valueSet := vs, refers := a.refers,
                     enumeration := a.enum },
                 array := typed.optIsTrue a.isCollection,
                 required := typed.optIsTrue a.isRequired,
                 fce := a.extensionUrl }
      ∧ typed.InvalidAttributeError.invalidEntityReference r
          ∈ (typed.Attribute.read_target_attribute a).2 := by
  have hpt : typed.Attribute.parse_type r
      = (some r.id, some (typed.InvalidAttributeError.invalidEntityReference r)) := by
    simp [typed.Attribute.parse_type, hne, hna]
  by_cases hres : a.resource.resourceType = "Entity"
  all_goals
    cases hv : a.valueSet with
    | none =>
      refine ⟨none, ?_, ?_⟩ <;>
        simp [typed.Attribute.read_target_attribute, h1, hv, hpt,
          typed.Attribute.parse_resource_type, hres]
    | some vsr =>
      have hpv : (typed.Attribute.parse_value_set vsr).1 = vsr.id := by
        unfold typed.Attribute.parse_value_set
        split <;> rfl
      refine ⟨some vsr.id, ?_, ?_⟩ <;>
        simp [typed.Attribute.read_target_attribute, h1, hv, hpt, hpv,
          typed.Attribute.parse_resource_type, hres]

/-- C10: a concrete attribute whose type reference has a kind tag that is
neither `Entity` nor `Attribute` still yields a typed Concrete attribute
targeting that reference's id, together with an `InvalidEntityReference`
diagnostic; only the kind tag `Attribute` (a recursive type reference) makes
the validator drop the attribute. -/
theorem c10_non_entity_type_reference_kept (a : aidbox.Attribute)
    (r : aidbox.Reference) (h1 : a.type? = some r) (h2 : a.union = none) :
    (r.resourceType ≠ "Entity" → r.resourceType ≠ "Attribute" →
      ∃ (t : typed.Attribute) (vs : Option String),
        (typed.Attribute.build_from a).1 = some t
      ∧ t.kind = typed.AttributeKind.concrete
          { target := r.id, valueSet := vs, refers := a.refers, enumeration := a.enum }
      ∧ ({ id := a.id, source := typed.InvalidAttributeError.invalidEntityReference r } : typed.Error)
          ∈ (typed.Attribute.build_from a).2)
  ∧ (r.resourceType = "Attribute" → (typed.Attribute.build_from a).1 = none) := by
  have hbf1 : (typed.Attribute.build_from a).1
      = (typed.Attribute.read_target_attribute a).1 := by
    simp [typed.Attribute.build_from, h1, h2]
  have hbf2 : (typed.Attribute.build_from a).2
      = (typed.Attribute.check_unsupported_properties a
          ++ (typed.Attribute.read_target_attribute a).2).map
          (fun e => { id := a.id, source := e }) := by
    simp [typed.Attribute.build_from, h1, h2]
  constructor
  · intro hne hna
    obtain ⟨vs, hres, hmem⟩ := read_target_odd_kind a r h1 hne hna
    refine ⟨_, vs, hbf1 ▸ hres, rfl, ?_⟩
    rw [hbf2]
    simp only [List.mem_map, List.mem_append]
    exact ⟨typed.InvalidAttributeError.invalidEntityReference r, Or.inr hmem, rfl⟩
  · intro hattr
    rw [hbf1]
    have hpt : typed.Attribute.parse_type r
        = (none, some (typed.InvalidAttributeError.invalidEntityReference r)) := by
      simp [typed.Attribute.parse_type, hattr]
    cases hv : a.valueSet <;>
      simp [typed.Attribute.read_target_attribute, h1, hv, hpt]

theorem c10_non_entity_type_reference_kept_witness :
    ∃ (t : typed.Attribute) (vs : Option String),
      (typed.Attribute.build_from oddKindAttr).1 = some t
    ∧ t.kind = typed.AttributeKind.concrete
        { target := "string", valueSet := vs, refers := none, enumeration := none }
    ∧ ({ id := "k1",
         source := typed.InvalidAttributeError.invalidEntityReference
           { id := "string", resourceType := "Zorp" } } : typed.Error)
        ∈ (typed.Attribute.build_from oddKindAttr).2 :=
  (c10_non_entity_type_reference_kept oddKindAttr
      { id := "string", resourceType := "Zorp" } rfl rfl).1
    (by decide) (by decide)

theorem read_target_clear (a : aidbox.Attribute) :
    typed.Attribute.read_target_attribute (clearUnsupported a)
      = typed.Attribute.read_target_attribute a := by
  cases a
  rfl

theorem read_poly_clear (a : aidbox.Attribute) :
    typed.Attribute.read_poly_attribute (clearUnsupported a)
      = typed.Attribute.read_poly_attribute a := by
  cases a
  rfl

theorem read_complex_clear (a : aidbox.Attribute) :
    typed.Attribute.read_complex_attribute (clearUnsupported a)
      = typed.Attribute.read_complex_attribute a := by
  cases a
  rfl

theorem check_unsupported_clear (a : aidbox.Attribute) :
    typed.Attribute.check_unsupported_properties (clearUnsupported a) = [] := by
  cases a
  rfl

theorem parse_resource_type_not_unsupported (x : aidbox.Reference) :
    ∀ e ∈ (typed.Attribute.parse_resource_type x).2.toList,
      isUnsupportedProp e = false := by
  intro e he
  unfold typed.Attribute.parse_resource_type at he
  split at he <;> simp at he <;> simp [he, isUnsupportedProp]

theorem parse_type_not_unsupported (x : aidbox.Reference) :
    ∀ e ∈ (typed.Attribute.parse_type x).2.toList,
      isUnsupportedProp e = false := by
  intro e he
  unfold typed.Attribute.parse_type at he
  split at he
  · simp at he; simp [he, isUnsupportedProp]
  · split at he <;> simp at he <;> simp [he, isUnsupportedProp]

theorem parse_value_set_not_unsupported (x : aidbox.Reference) :
    ∀ e ∈ (typed.Attribute.parse_value_set x).2.toList,
      isUnsupportedProp e = false := by
  intro e he
  unfold typed.Attribute.parse_value_set at he
  split at he <;> simp at he <;> simp [he, isUnsupportedProp]

theorem parse_union_targets_not_unsupported : ∀ (l : List aidbox.Reference)
    (e : typed.InvalidAttributeError),
    e ∈ (typed.Attribute.parse_union_targets l).2 → isUnsupportedProp e = false := by
  intro l
  induction l with
  | nil => intro e he; simp [typed.Attribute.parse_union_targets] at he
  | cons r rest ih =>
    intro e he
    simp only [typed.Attribute.parse_union_targets, List.mem_append] at he
    rcases he with h | h
    · exact parse_type_not_unsupported r e h
    · exact ih e h

theorem mem_ite_singleton_eq {c : Prop} [Decidable c]
    {x e : typed.InvalidAttributeError}
    (h : e ∈ (if c then [x] else [])) : e = x := by
  split at h
  · simpa using h
  · simp at h

theorem read_target_not_unsupported (a : aidbox.Attribute) :
    ∀ e ∈ (typed.Attribute.read_target_attribute a).2,
      isUnsupportedProp e = false := by
  unfold typed.Attribute.read_target_attribute
  cases ht : a.type? with
  | none => simp
  | some attrType =>
    rcases hrt : typed.Attribute.parse_resource_type a.resource with ⟨rt1, rte⟩
    rcases hpt : typed.Attribute.parse_type attrType with ⟨tp1, tpe⟩
    simp only [hrt, hpt]
    cases hv : a.valueSet with
    | none =>
      cases tp1 with
      | none =>
        repeat' refine List.forall_mem_append.mpr ⟨?_, ?_⟩
        all_goals
          intro e h
          first
          | exact parse_resource_type_not_unsupported a.resource e (by rw [hrt]; exact h)
          | exact parse_type_not_unsupported attrType e (by rw [hpt]; exact h)
          | simp [mem_ite_singleton_eq h, isUnsupportedProp]
          | simp at h
      | some target =>
        cases rt1 <;>
        · repeat' refine List.forall_mem_append.mpr ⟨?_, ?_⟩
          all_goals
            intro e h
            first
            | exact parse_resource_type_not_unsupported a.resource e (by rw [hrt]; exact h)
            | exact parse_type_not_unsupported attrType e (by rw [hpt]; exact h)
            | simp [mem_ite_singleton_eq h, isUnsupportedProp]
            | simp at h
    | some vsr =>
      cases tp1 with
      | none =>
        repeat' refine List.forall_mem_append.mpr ⟨?_, ?_⟩
        all_goals
          intro e h
          first
          | exact parse_resource_type_not_unsupported a.resource e (by rw [hrt]; exact h)
          | exact parse_type_not_unsupported attrType e (by rw [hpt]; exact h)
          | exact parse_value_set_not_unsupported vsr e h
          | simp [mem_ite_singleton_eq h, isUnsupportedProp]
          | simp at h
      | some target =>
        cases rt1 <;>
        · repeat' refine List.forall_mem_append.mpr ⟨?_, ?_⟩
          all_goals
            intro e h
            first
            | exact parse_resource_type_not_unsupported a.resource e (by rw [hrt]; exact h)
            | exact parse_type_not_unsupported attrType e (by rw [hpt]; exact h)
            | exact parse_value_set_not_unsupported vsr e h
            | simp [mem_ite_singleton_eq h, isUnsupportedProp]
            | simp at h

theorem read_poly_not_unsupported (a : aidbox.Attribute) :
    ∀ e ∈ (typed.Attribute.read_poly_attribute a).2,
      isUnsupportedProp e = false := by
  unfold typed.Attribute.read_poly_attribute
  cases hu : a.union with
  | none => simp
  | some attrTypes =>
    rcases hrt : typed.Attribute.parse_resource_type a.resource with ⟨rt1, rte⟩
    rcases hp : typed.Attribute.parse_union_targets attrTypes with ⟨ts, tes⟩
    simp only [hrt, hp]
    cases rt1 with
    | none =>
      repeat' refine List.forall_mem_append.mpr ⟨?_, ?_⟩
      all_goals
        intro e h
        first
        | exact parse_resource_type_not_unsupported a.resource e (by rw [hrt]; exact h)
        | exact parse_union_targets_not_unsupported attrTypes e (by rw [hp]; exact h)
        | simp [mem_ite_singleton_eq h, isUnsupportedProp]
        | simp at h
    | some resourceType =>
      rw [apply_ite Prod.snd, ite_self]
      repeat' refine List.forall_mem_append.mpr ⟨?_, ?_⟩
      all_goals
        intro e h
        first
        | exact parse_resource_type_not_unsupported a.resource e (by rw [hrt]; exact h)
        | exact parse_union_targets_not_unsupported attrTypes e (by rw [hp]; exact h)
        | simp [mem_ite_singleton_eq h, isUnsupportedProp]
        | simp at h

theorem read_complex_not_unsupported (a : aidbox.Attribute) :
    ∀ e ∈ (typed.Attribute.read_complex_attribute a).2,
      isUnsupportedProp e = false := by
  unfold typed.Attribute.read_complex_attribute
  rcases hrt : typed.Attribute.parse_resource_type a.resource with ⟨rt1, rte⟩
  simp only [hrt]
  cases rt1 <;>
  · repeat' refine List.forall_mem_append.mpr ⟨?_, ?_⟩
    all_goals
      intro e h
      first
      | exact parse_resource_type_not_unsupported a.resource e (by rw [hrt]; exact h)
      | simp [mem_ite_singleton_eq h, isUnsupportedProp]
      | simp at h

theorem build_from_clear_decomp (a : aidbox.Attribute) :
    typed.Attribute.build_from a
      = ((typed.Attribute.build_from (clearUnsupported a)).1,
         (typed.Attribute.check_unsupported_properties a).map
             (fun e => { id := a.id, source := e })
           ++ (typed.Attribute.build_from (clearUnsupported a)).2) := by
  have ht : (clearUnsupported a).type? = a.type? := rfl
  have hu : (clearUnsupported a).union = a.union := rfl
  have hid : (clearUnsupported a).id = a.id := rfl
  have h4 := check_unsupported_clear a
  cases htv : a.type? <;> cases huv : a.union <;>
    simp [typed.Attribute.build_from, htv, huv, ht, hu, hid, h4,
      read_target_clear, read_poly_clear, read_complex_clear]

theorem build_from_clear_not_unsupported (a : aidbox.Attribute) :
    ∀ d ∈ (typed.Attribute.build_from (clearUnsupported a)).2,
      isUnsupportedProp d.source = false := by
  intro d hd
  have ht : (clearUnsupported a).type? = a.type? := rfl
  have hu : (clearUnsupported a).union = a.union := rfl
  have h4 := check_unsupported_clear a
  cases htv : a.type? with
  | some t =>
    cases huv : a.union with
    | none =>
      simp only [typed.Attribute.build_from, ht, hu, htv, huv, h4,
        List.nil_append, List.mem_map] at hd
      obtain ⟨e, he, hde⟩ := hd
      rw [← hde]
      exact (read_target_clear a ▸ read_target_not_unsupported (clearUnsupported a)) e he
    | some u =>
      simp only [typed.Attribute.build_from, ht, hu, htv, huv, h4,
        List.nil_append, List.mem_map] at hd
      obtain ⟨e, he, hde⟩ := hd
      rw [← hde]
      have : e = typed.InvalidAttributeError.invalidKind := by simpa using he
      simp [this, isUnsupportedProp]
  | none =>
    cases huv : a.union with
    | some u =>
      simp only [typed.Attribute.build_from, ht, hu, htv, huv, h4,
        List.nil_append, List.mem_map] at hd
      obtain ⟨e, he, hde⟩ := hd
      rw [← hde]
      exact (read_poly_clear a ▸ read_poly_not_unsupported (clearUnsupported a)) e he
    | none =>
      simp only [typed.Attribute.build_from, ht, hu, htv, huv, h4,
        List.nil_append, List.mem_map] at hd
      obtain ⟨e, he, hde⟩ := hd
      rw [← hde]
      exact (read_complex_clear a ▸ read_complex_not_unsupported (clearUnsupported a)) e he

theorem countP_ite_singleton (c : Bool) (x : typed.InvalidAttributeError)
    (p : typed.InvalidAttributeError → Bool) :
    ((if c = true then [x] else []) : List typed.InvalidAttributeError).countP p
      = if c = true then (if p x then 1 else 0) else 0 := by
  cases c <;> simp [List.countP_cons]

theorem c8_count_aux (a : aidbox.Attribute) (v : typed.InvalidAttributeError)
    (hv : isUnsupportedProp v = true) :
    (typed.Attribute.build_from a).2.countP (fun d => d.source == v)
      = (typed.Attribute.check_unsupported_properties a).countP (fun e => e == v) := by
  rw [build_from_clear_decomp a]
  rw [List.countP_append]
  have hz : (typed.Attribute.build_from (clearUnsupported a)).2.countP
      (fun d => d.source == v) = 0 := by
    rw [List.countP_eq_zero]
    intro d hd
    have hns := build_from_clear_not_unsupported a d hd
    simp only [beq_iff_eq]
    intro hds
    rw [hds, hv] at hns
    exact absurd hns (by simp)
  rw [hz, Nat.add_zero, List.countP_map]
  rfl

/-- C8: each of the five unsupported properties (`schema`, `isSummary`,
`isModifier`, `isUnique`, `order`), when present, produces exactly one
corresponding diagnostic in the validator's output, and their presence never
changes the produced typed attribute: the optional result equals the result
for the same attribute with all five properties absent. -/
theorem c8_unsupported_properties_reported_not_blocking (a : aidbox.Attribute) :
    (typed.Attribute.build_from a).1
      = (typed.Attribute.build_from (clearUnsupported a)).1
  ∧ (typed.Attribute.build_from a).2.countP
        (fun d => d.source == typed.InvalidAttributeError.schemaPresent)
      = (if a.schema.isSome then 1 else 0)
  ∧ (typed.Attribute.build_from a).2.countP
        (fun d => d.source == typed.InvalidAttributeError.summaryPresent)
      = (if a.isSummary.isSome then 1 else 0)
  ∧ (typed.Attribute.build_from a).2.countP
        (fun d => d.source == typed.InvalidAttributeError.modifierPresent)
      = (if a.isModifier.isSome then 1 else 0)
  ∧ (typed.Attribute.build_from a).2.countP
        (fun d => d.source == typed.InvalidAttributeError.uniquePresent)
      = (if a.isUnique.isSome then 1 else 0)
  ∧ (typed.Attribute.build_from a).2.countP
        (fun d => d.source == typed.InvalidAttributeError.orderPresent)
      = (if a.order.isSome then 1 else 0) := by
  refine ⟨?_, ?_, ?_, ?_, ?_, ?_⟩
  · rw [build_from_clear_decomp a]
  all_goals
    rw [c8_count_aux a _ (by simp [isUnsupportedProp])]
    simp [typed.Attribute.check_unsupported_properties, List.countP_append,
      countP_ite_singleton]
